import Mathlib

/-!
# Verification of the Lazy Capsule Audit engine (CognitiveInsight)

Shallow embedding of `src/models/lazy_capsule_audit/` — the key-derivation
hierarchy (`core.py`), the Merkle/content-hashing engine (`merkle.py`), the
lazy capsule materializer (`capsule.py`), the tamper-evident metadata store
(`metadata.py`) and the multi-model registry (`registry.py`).

Byte strings are `List Nat` (each entry one byte).  The external
cryptographic library primitives (hashlib SHA-256, hmac, PBKDF2, AES-GCM)
are parameters of the embedding, collected in a `Prims` structure: every
theorem about key derivation or hashing is proved for an arbitrary
interpretation of the primitives, exactly as the Python code treats them as
opaque.  Randomness (`secrets.token_bytes`) is an explicit byte stream with a
cursor, `time.time()` an explicit natural-number argument, so all state
transitions are pure functions.
-/

namespace LazyCapsuleAudit

/-- Byte strings: lists of byte values. -/
abbrev Bytes := List Nat

/-- UTF-8 encoding of one unicode scalar value. -/
def charUTF8 (c : Char) : Bytes :=
  let n := c.toNat
  if n < 0x80 then [n]
  else if n < 0x800 then [0xC0 + n / 0x40, 0x80 + n % 0x40]
  else if n < 0x10000 then
    [0xE0 + n / 0x1000, 0x80 + (n / 0x40) % 0x40, 0x80 + n % 0x40]
  else
    [0xF0 + n / 0x40000, 0x80 + (n / 0x1000) % 0x40,
     0x80 + (n / 0x40) % 0x40, 0x80 + n % 0x40]

/-- UTF-8 encoding of a Python `str` (`s.encode('utf-8')`). -/
def strBytes (s : String) : Bytes :=
  (s.data.map charUTF8).flatten

/-- One lowercase hex digit. -/
def hexDigit (n : Nat) : Char :=
  if n < 10 then Char.ofNat (48 + n) else Char.ofNat (87 + n)

/-- Lowercase hex of one byte (`bytes.hex()` renders each byte as two digits). -/
def hexByte (b : Nat) : String :=
  String.mk [hexDigit ((b % 256) / 16), hexDigit (b % 16)]

/-- Lowercase hex of a byte string, mirroring Python's `bytes.hex()`. -/
def hexStr (bs : Bytes) : String :=
  String.join (bs.map hexByte)

/-- The external cryptographic primitives used by `core.py` / `merkle.py`,
kept abstract: the repository calls `hashlib.sha256`, `hmac.new(·,·,sha256)`,
`PBKDF2HMAC` and `AESGCM` as black boxes. -/
structure Prims where
  /-- `hashlib.sha256(data).digest()` -/
  sha256 : Bytes → Bytes
  /-- `hmac.new(key, data, hashlib.sha256).digest()` -/
  hmacSha256 : Bytes → Bytes → Bytes
  /-- `PBKDF2HMAC(SHA256, length, salt, iterations).derive(password)` -/
  pbkdf2 : Bytes → Bytes → Nat → Nat → Bytes
  /-- `AESGCM(key).encrypt(nonce, data, aad)` (tag appended to ciphertext). -/
  aesGcmEncrypt : Bytes → Bytes → Bytes → Bytes → Bytes

/-- `secrets.token_bytes n` drawn from an explicit random stream `rho`
starting at cursor `k`. -/
def tokenBytes (rho : Nat → Nat) (k n : Nat) : Bytes :=
  (List.range n).map (fun i => rho (k + i))

/-! ## Key hierarchy (`core.py`, `CryptographicEngine` constants and
`KeyDerivationHierarchy`) -/

/-- `CryptographicEngine.PBKDF2_ITERATIONS` -/
def PBKDF2_ITERATIONS : Nat := 100000
/-- `CryptographicEngine.KEY_LENGTH` -/
def KEY_LENGTH : Nat := 32
/-- `CryptographicEngine.NONCE_LENGTH` -/
def NONCE_LENGTH : Nat := 12

/-- `CryptographicEngine.sha256_hash` on a `str` argument. -/
def sha256Hash (P : Prims) (s : String) : Bytes :=
  P.sha256 (strBytes s)

/-- `KeyDerivationHierarchy.derive_master_key` with an explicit salt; the
`iterations` argument is `None` in every call made by `get_capsule_key`, so
the default `PBKDF2_ITERATIONS` applies. -/
def deriveMasterKey (P : Prims) (passphrase : String) (salt : Bytes)
    (iterations : Option Nat) : Bytes :=
  P.pbkdf2 (strBytes passphrase) salt (iterations.getD PBKDF2_ITERATIONS) KEY_LENGTH

/-- `KeyDerivationHierarchy.derive_dataset_key`. -/
def deriveDatasetKey (P : Prims) (masterKey : Bytes) (datasetId : String) : Bytes :=
  P.hmacSha256 masterKey (sha256Hash P datasetId)

/-- Identifier built by `derive_capsule_key`: `f"{sample_id}"`, extended with
`":" + session_id` only when `session_id` is truthy (non-`None`, non-empty). -/
def capsuleIdentifier (sampleId : String) (sessionCtx : Option String) : String :=
  match sessionCtx with
  | none => sampleId
  | some c => if c = "" then sampleId else sampleId ++ ":" ++ c

/-- `KeyDerivationHierarchy.derive_capsule_key`. -/
def deriveCapsuleKey (P : Prims) (datasetKey : Bytes) (sampleId : String)
    (sessionCtx : Option String) : Bytes :=
  P.hmacSha256 datasetKey (sha256Hash P (capsuleIdentifier sampleId sessionCtx))

/-- A key-derivation session as stored by `MasterKeyManager.create_session`:
only the inputs, no derived key. -/
structure KeySession where
  datasetId : String
  passphrase : String
  salt : Bytes
  deriving DecidableEq, Repr

/-- `MasterKeyManager` state: the `_active_sessions` table. -/
structure MasterKeyManager where
  activeSessions : List (String × KeySession)
  deriving Repr

/-- Association-list lookup (Python `dict` membership / indexing). -/
def lookupA {α : Type} (l : List (String × α)) (k : String) : Option α :=
  (l.find? (fun p => p.1 = k)).map Prod.snd

/-- Association-list update: replace in place if present (dict keeps the
original insertion position), else append. -/
def updateA {α : Type} (l : List (String × α)) (k : String) (v : α) :
    List (String × α) :=
  if (l.find? (fun p => p.1 = k)).isSome then
    l.map (fun p => if p.1 = k then (k, v) else p)
  else l ++ [(k, v)]

/-- Decidable equality for `Except` results (componentwise). -/
instance {e a : Type} [DecidableEq e] [DecidableEq a] : DecidableEq (Except e a) :=
  fun x y =>
    match x, y with
    | .error u, .error v =>
        if h : u = v then .isTrue (by rw [h])
        else .isFalse (fun hc => h (Except.error.inj hc))
    | .error _, .ok _ => .isFalse (fun hc => Except.noConfusion hc)
    | .ok _, .error _ => .isFalse (fun hc => Except.noConfusion hc)
    | .ok u, .ok v =>
        if h : u = v then .isTrue (by rw [h])
        else .isFalse (fun hc => h (Except.ok.inj hc))

/-- `MasterKeyManager.create_session` with an explicit salt. -/
def createSession (m : MasterKeyManager) (sessionId passphrase datasetId : String)
    (salt : Bytes) : MasterKeyManager :=
  { activeSessions :=
      updateA m.activeSessions sessionId
        { datasetId := datasetId, passphrase := passphrase, salt := salt } }

/-- `MasterKeyManager.get_capsule_key`: raises `KeyError` when the session is
unknown, otherwise re-derives the full hierarchy on demand. -/
def getCapsuleKey (P : Prims) (m : MasterKeyManager) (sessionId sampleId : String)
    (sessionContext : Option String) : Except String Bytes :=
  match lookupA m.activeSessions sessionId with
  | none => .error ("Session " ++ sessionId ++ " not found")
  | some s =>
      let masterKey := deriveMasterKey P s.passphrase s.salt none
      let datasetKey := deriveDatasetKey P masterKey s.datasetId
      .ok (deriveCapsuleKey P datasetKey sampleId sessionContext)

/-! ## Merkle engine (`merkle.py`) -/

/-- `MerkleTreeBuilder.DEFAULT_CHUNK_SIZE` -/
def DEFAULT_CHUNK_SIZE : Nat := 1000
/-- `MerkleTreeBuilder.LARGE_DATASET_THRESHOLD` -/
def LARGE_DATASET_THRESHOLD : Nat := 5000

/-- `MerkleTreeBuilder.hash_sample` on a `str` payload (the engine stores
plaintext payloads; string payloads are UTF-8 encoded then hashed). -/
def hashSample (P : Prims) (sampleData : String) : Bytes :=
  P.sha256 (strBytes sampleData)

/-- One bottom-up level of `build_tree_during_audit`'s loop: pairs are hashed
`SHA-256(left ‖ right)`; a trailing unpaired node is hashed with itself
(`right = current_level[i + 1] if i + 1 < len(current_level) else left`). -/
def levelUp (sha : Bytes → Bytes) : List Bytes → List Bytes
  | [] => []
  | [x] => [sha (x ++ x)]
  | x :: y :: rest => sha (x ++ y) :: levelUp sha rest

theorem levelUp_length (sha : Bytes → Bytes) :
    ∀ l : List Bytes, (levelUp sha l).length = (l.length + 1) / 2
  | [] => by simp [levelUp]
  | [x] => by simp [levelUp]
  | x :: y :: rest => by
      simp only [levelUp, List.length_cons, levelUp_length sha rest]
      omega

/-- The level-collection loop under an explicit fuel bound (each round at
least halves the level, so `l.length` rounds always suffice). -/
def buildLevelsAux (sha : Bytes → Bytes) : Nat → List Bytes → List (List Bytes)
  | 0, l => [l]
  | fuel + 1, l =>
      if l.length ≤ 1 then [l]
      else l :: buildLevelsAux sha fuel (levelUp sha l)

/-- All tree levels, leaves first, as collected in `tree_levels`:
`tree_levels = [leaves]` then one `levelUp` per iteration of the
`while len(current_level) > 1` loop. -/
def buildLevels (sha : Bytes → Bytes) (l : List Bytes) : List (List Bytes) :=
  buildLevelsAux sha l.length l

theorem half_le_sub_one : ∀ n, 2 ≤ n → (n + 1) / 2 ≤ n - 1 := by
  intro n h
  omega

theorem buildLevelsAux_mono (sha : Bytes → Bytes) :
    ∀ f₁ f₂ (l : List Bytes), l.length ≤ f₁ + 1 → l.length ≤ f₂ + 1 →
      buildLevelsAux sha f₁ l = buildLevelsAux sha f₂ l := by
  intro f₁
  induction f₁ with
  | zero =>
      intro f₂ l h₁ _
      cases f₂ with
      | zero => rfl
      | succ g =>
          show buildLevelsAux sha 0 l = buildLevelsAux sha (g + 1) l
          unfold buildLevelsAux
          rw [if_pos (by omega)]
  | succ f ih =>
      intro f₂ l h₁ h₂
      by_cases hle : l.length ≤ 1
      · cases f₂ with
        | zero => simp [buildLevelsAux, hle]
        | succ g => simp [buildLevelsAux, hle]
      · push_neg at hle
        obtain ⟨g, rfl⟩ : ∃ g, f₂ = g + 1 := ⟨f₂ - 1, by omega⟩
        show buildLevelsAux sha (f + 1) l = buildLevelsAux sha (g + 1) l
        unfold buildLevelsAux
        rw [if_neg (by omega), if_neg (by omega)]
        have hlv : (levelUp sha l).length = (l.length + 1) / 2 := levelUp_length sha l
        have hlv1 : (levelUp sha l).length ≤ f + 1 := by
          have := half_le_sub_one l.length (by omega)
          omega
        have hlv2 : (levelUp sha l).length ≤ g + 1 := by
          have := half_le_sub_one l.length (by omega)
          omega
        rw [ih g (levelUp sha l) hlv1 hlv2]

/-- The root: head of the final level (`current_level[0]`); `none` models the
`IndexError` raised on an empty level. -/
def rootOfLevels (levels : List (List Bytes)) : Option Bytes :=
  levels.getLast?.bind List.head?

/-- Merkle root of a leaf list, as computed by the audit-time loop. -/
def merkleRootOf (sha : Bytes → Bytes) (leaves : List Bytes) : Option Bytes :=
  rootOfLevels (buildLevels sha leaves)

/-- Per-sample record held in `_sample_registry[ds]["plaintext_samples"]`. -/
structure SampleInfo where
  rawData : String
  sampleIndex : Nat
  deriving DecidableEq, Repr

/-- `_sample_registry[ds]`: insertion-ordered plaintext samples plus the
`sample_count` counter (incremented on every registration, including
re-registrations of an existing id). -/
structure DatasetRegistry where
  plaintextSamples : List (String × SampleInfo)
  sampleCount : Nat
  deriving DecidableEq, Repr

/-- `MerkleTreeBuilder.register_sample_for_lazy_processing`: creates the
dataset registry on first use, stores/overwrites the plaintext entry and
unconditionally increments `sample_count`. -/
def registerSampleForLazyProcessing (reg : Option DatasetRegistry)
    (sampleId : String) (sampleData : String) : DatasetRegistry :=
  let r := reg.getD { plaintextSamples := [], sampleCount := 0 }
  { plaintextSamples :=
      updateA r.plaintextSamples sampleId
        { rawData := sampleData, sampleIndex := r.sampleCount }
    sampleCount := r.sampleCount + 1 }

/-- Audit-time tree stored in `_audit_time_trees[ds]`. -/
structure AuditTree where
  rootHash : Bytes
  treeLevels : List (List Bytes)
  sampleCount : Nat
  /-- `sample_mapping`: id ↦ (leaf index, leaf hash). -/
  sampleMapping : List (String × Nat × Bytes)
  deriving DecidableEq, Repr

/-- `MerkleTreeBuilder.build_tree_during_audit` restricted to one dataset
registry: hashes **all** registered samples in insertion order into leaves,
builds the levels bottom-up, and returns the tree (`.error` models the
`ValueError` on a missing dataset, handled by the caller, and the
`IndexError` on an empty sample map). -/
def buildTreeDuringAudit (P : Prims) (r : DatasetRegistry) :
    Except String AuditTree :=
  let leaves := r.plaintextSamples.map (fun p => hashSample P p.2.rawData)
  let mapping := r.plaintextSamples.enum.map
    (fun pi => (pi.2.1, pi.1, hashSample P pi.2.2.rawData))
  let levels := buildLevels P.sha256 leaves
  match rootOfLevels levels with
  | none => .error "IndexError"
  | some root =>
      .ok { rootHash := root, treeLevels := levels,
            sampleCount := leaves.length, sampleMapping := mapping }

/-! ## Content hashing (`merkle.py`: dataset and capsule hashes) -/

/-- Per-sample entry `f"sample_id:{id}|data:" ‖ data ‖ b"|"` used by both
dataset-hash strategies. -/
def sampleEntry (id : String) (data : Bytes) : Bytes :=
  strBytes ("sample_id:" ++ id ++ "|data:") ++ data ++ strBytes "|"

/-- Code-point lexicographic comparison of strings, the order Python uses
when sorting `str` keys. -/
def charListLe : List Char → List Char → Bool
  | [], _ => true
  | _ :: _, [] => false
  | a :: as, b :: bs =>
      if a.toNat < b.toNat then true
      else if b.toNat < a.toNat then false
      else charListLe as bs

/-- `a <= b` on Python strings. -/
def strLe (a b : String) : Bool :=
  charListLe a.data b.data

/-- Insert after all entries whose key is `<=` the new key (so the sort
below is stable, like Python `sorted`). -/
def insertByKey {α : Type} (p : String × α) :
    List (String × α) → List (String × α)
  | [] => [p]
  | q :: rest =>
      if strLe q.1 p.1 then q :: insertByKey p rest else p :: q :: rest

/-- A stable ascending sort by string key (Python `sorted(..., key=str)`). -/
def sortByKey {α : Type} (l : List (String × α)) : List (String × α) :=
  l.foldl (fun acc p => insertByKey p acc) []

/-- Python `sorted(sample_data_list, key=lambda x: str(x[0]))`: a stable sort
by the (string) sample id. -/
def sortById (l : List (String × Bytes)) : List (String × Bytes) :=
  sortByKey l

theorem insertByKey_length {α : Type} (p : String × α) :
    ∀ l : List (String × α), (insertByKey p l).length = l.length + 1
  | [] => rfl
  | q :: rest => by
      unfold insertByKey
      by_cases h : strLe q.1 p.1 = true
      · simp [h, insertByKey_length p rest]
      · simp [h]

theorem sortByKey_length {α : Type} (l : List (String × α)) :
    (sortByKey l).length = l.length := by
  suffices h : ∀ (l : List (String × α)) (acc : List (String × α)),
      (l.foldl (fun acc p => insertByKey p acc) acc).length =
        acc.length + l.length by
    simpa using h l []
  intro l
  induction l with
  | nil => simp
  | cons p rest ih =>
      intro acc
      simp only [List.foldl_cons, ih, insertByKey_length, List.length_cons]
      omega

/-- The slicing loop under an explicit fuel bound (`l.length` slices always
suffice since each step drops at least one element). -/
def chunksOfAux {α : Type} : Nat → Nat → List α → List (List α)
  | _, _, [] => []
  | _, 0, l => [l]
  | 0, _ + 1, _ :: _ => []
  | fuel + 1, c + 1, x :: xs =>
      (x :: xs).take (c + 1) :: chunksOfAux fuel (c + 1) ((x :: xs).drop (c + 1))

/-- Slicing loop `for chunk_idx in range(0, len(sorted_samples), chunk_size)`:
successive slices of `c` elements.  (`c = 0` never occurs: the chunk size is
the builder's `_chunk_size`, 1000 by default.) -/
def chunksOf {α : Type} (c : Nat) (l : List α) : List (List α) :=
  chunksOfAux l.length c l

theorem chunksOfAux_mono {α : Type} :
    ∀ f₁ f₂ c (l : List α), l.length ≤ f₁ → l.length ≤ f₂ →
      chunksOfAux f₁ c l = chunksOfAux f₂ c l := by
  intro f₁
  induction f₁ with
  | zero =>
      intro f₂ c l h₁ _
      have : l = [] := by
        cases l with
        | nil => rfl
        | cons x xs => simp at h₁
      subst this
      cases f₂ <;> cases c <;> rfl
  | succ f ih =>
      intro f₂ c l h₁ h₂
      cases l with
      | nil => cases f₂ <;> cases c <;> rfl
      | cons x xs =>
          cases c with
          | zero =>
              obtain ⟨g, rfl⟩ : ∃ g, f₂ = g + 1 := ⟨f₂ - 1, by simp at h₂; omega⟩
              rfl
          | succ c' =>
              obtain ⟨g, rfl⟩ : ∃ g, f₂ = g + 1 := ⟨f₂ - 1, by simp at h₂; omega⟩
              show (x :: xs).take (c' + 1) :: chunksOfAux f (c' + 1) ((x :: xs).drop (c' + 1)) =
                (x :: xs).take (c' + 1) :: chunksOfAux g (c' + 1) ((x :: xs).drop (c' + 1))
              congr 1
              apply ih
              · simp at h₁ ⊢
                omega
              · simp at h₂ ⊢
                omega

/-- `MerkleTreeBuilder._hash_small_dataset_single`: one hash over the
concatenated entries of the id-sorted samples; no chunk hashes. -/
def hashSmallDatasetSingle (P : Prims) (l : List (String × Bytes)) :
    Bytes × List (Nat × Bytes) :=
  let combined := (sortById l).foldl (fun acc p => acc ++ sampleEntry p.1 p.2) []
  (P.sha256 combined, [])

/-- `MerkleTreeBuilder._hash_large_dataset_chunked`: id-sorted samples are
sliced into chunks of `c`; each chunk is hashed over its concatenated
entries; the dataset hash is the hash of the concatenated chunk hashes. -/
def hashLargeDatasetChunked (P : Prims) (c : Nat) (l : List (String × Bytes)) :
    Bytes × List (Nat × Bytes) :=
  let chunks := chunksOf c (sortById l)
  let chunkHashes := chunks.map
    (fun ch => P.sha256 (ch.foldl (fun acc p => acc ++ sampleEntry p.1 p.2) []))
  (P.sha256 (chunkHashes.foldl (· ++ ·) []), chunkHashes.enum)

/-- Dataset-hash result (`DatasetHashInfo` without the timestamp field). -/
structure DatasetHashInfo where
  datasetHash : Bytes
  totalSamples : Nat
  totalSizeBytes : Nat
  chunkSize : Option Nat
  chunkHashes : List (Nat × Bytes)
  deriving DecidableEq, Repr

/-- `MerkleTreeBuilder.hash_dataset_comprehensive` on a dataset registry
(cache miss path): converts each stored payload to bytes in insertion order,
then dispatches on `total_samples >= LARGE_DATASET_THRESHOLD`. -/
def hashDatasetComprehensive (P : Prims) (chunkSize : Nat)
    (r : DatasetRegistry) : DatasetHashInfo :=
  let sampleDataList := r.plaintextSamples.map (fun p => (p.1, strBytes p.2.rawData))
  let totalSamples := sampleDataList.length
  let totalSize := sampleDataList.foldl (fun acc p => acc + p.2.length) 0
  let result :=
    if totalSamples ≥ LARGE_DATASET_THRESHOLD then
      hashLargeDatasetChunked P chunkSize sampleDataList
    else
      hashSmallDatasetSingle P sampleDataList
  { datasetHash := result.1
    totalSamples := totalSamples
    totalSizeBytes := totalSize
    chunkSize := if totalSamples ≥ LARGE_DATASET_THRESHOLD then some chunkSize else none
    chunkHashes := result.2 }

/-! ## Merkle proofs and package verification (`merkle.py`, `capsule.py`) -/

/-- `MerkleProof` (dataclass). -/
structure MerkleProof where
  sampleId : String
  sampleHash : Bytes
  /-- `(sibling_hash, is_right_sibling)` pairs. -/
  proofPath : List (Bytes × Bool)
  rootHash : Bytes
  treeSize : Nat
  deriving DecidableEq, Repr

/-- The fold inside `MerkleProof.verify`: recompute the root from the leaf
along the path. -/
def reconstructRoot (sha : Bytes → Bytes) (leaf : Bytes)
    (path : List (Bytes × Bool)) : Bytes :=
  path.foldl
    (fun cur pr => if pr.2 then sha (cur ++ pr.1) else sha (pr.1 ++ cur)) leaf

/-- `MerkleProof.verify(expected_root)`: the chained comparison
`current_hash == expected_root == self.root_hash`. -/
def MerkleProof.verify (sha : Bytes → Bytes) (p : MerkleProof)
    (expectedRoot : Bytes) : Bool :=
  let current := reconstructRoot sha p.sampleHash p.proofPath
  current = expectedRoot ∧ expectedRoot = p.rootHash

/-- `MerkleTreeBuilder.verify_proof`: `expected_root` defaults to the proof's
own `root_hash` when the caller passes none. -/
def verifyProof (sha : Bytes → Bytes) (p : MerkleProof)
    (expectedRoot : Option Bytes) : Bool :=
  p.verify sha (expectedRoot.getD p.rootHash)

/-- `generate_proof_during_audit`'s bottom-up walk: one `(sibling,
is_right_sibling)` entry per level below the root; a missing sibling (odd
tail) contributes the node itself with `is_right_sibling = true`. -/
def proofPathWalk : List (List Bytes) → Nat → List (Bytes × Bool)
  | [], _ => []
  | [_], _ => []
  | lvl :: rest, i =>
      let (sibIdx, isRight) : Nat × Bool :=
        if i % 2 = 0 then (i + 1, true) else (i - 1, false)
      let sib := if h : sibIdx < lvl.length then lvl.get ⟨sibIdx, h⟩
                 else lvl.getD i []
      (sib, isRight) :: proofPathWalk rest (i / 2)

/-- `MerkleTreeBuilder.generate_proof_during_audit` given the audit-time
tree (`.error` models the `ValueError` on an unknown sample). -/
def generateProofDuringAudit (tree : AuditTree) (sampleId : String) :
    Except String MerkleProof :=
  match tree.sampleMapping.find? (fun m => m.1 = sampleId) with
  | none => .error ("Sample " ++ sampleId ++ " not found")
  | some m =>
      .ok { sampleId := sampleId
            sampleHash := m.2.2
            proofPath := proofPathWalk tree.treeLevels m.2.1
            rootHash := tree.rootHash
            treeSize := tree.sampleCount }

/-- The verification results dictionary built by
`LazyCapsuler.verify_audit_package`. -/
structure VerificationResults where
  packageStructureValid : Bool
  merkleProofsValid : Bool
  capsuleIntegrityValid : Bool
  performanceTargetsMet : Bool
  overallValid : Bool
  deriving DecidableEq, Repr

/-- An audit package as consumed by `verify_audit_package`: the four
required fields are modelled by presence flags (a package produced by
`generate_audit_package` has them all), the capsules contribute only their
`merkle_proof`, and `merkle_tree_info` its root. -/
structure AuditPackageView where
  hasAuditId : Bool
  hasDatasetId : Bool
  hasMaterializedCapsules : Bool
  hasMerkleTreeInfo : Bool
  capsuleProofs : List MerkleProof
  /-- `merkle_tree_info["root_hash"]` as bytes. -/
  merkleTreeRoot : Bytes
  /-- `performance_metrics["patent_targets_met"]` when present. -/
  performanceMetrics : Option Bool
  deriving Repr

/-- `LazyCapsuler.verify_audit_package`: structural field check, then for
each capsule `verify_proof(capsule.merkle_proof)` — called with **no**
expected root — then the performance flag; `overall_valid` is their
conjunction (`capsule_integrity_valid` is never recomputed). -/
def verifyAuditPackage (sha : Bytes → Bytes) (pkg : AuditPackageView) :
    VerificationResults :=
  let structValid := pkg.hasAuditId && pkg.hasDatasetId &&
    pkg.hasMaterializedCapsules && pkg.hasMerkleTreeInfo
  let merkleValid := pkg.capsuleProofs.all (fun p => verifyProof sha p none)
  let perfValid := match pkg.performanceMetrics with
    | some b => b
    | none => true
  { packageStructureValid := structValid
    merkleProofsValid := merkleValid
    capsuleIntegrityValid := true
    performanceTargetsMet := perfValid
    overallValid := structValid && merkleValid && true && perfValid }

/-! ## Metadata store (`metadata.py`) -/

/-- A tamper-log entry as appended by `store_audit_metadata`. -/
structure LogEntry where
  auditId : String
  timestamp : String
  integrityHash : String
  /-- `None` for the first entry. -/
  previousHash : Option String
  deriving DecidableEq, Repr

/-- Minimal JSON string escaping (backslash and quote); the values chained
through the log are hex digests, identifiers and RFC-3339 timestamps, which
this renders exactly as `json.dumps` does. -/
def escJson (s : String) : String :=
  String.join (s.data.map (fun c =>
    if c = '\\' then "\\\\" else if c = '"' then "\\\x22" else String.mk [c]))

/-- `json.dumps(entry, sort_keys=True)` for a log entry: the five keys in
lexicographic order (`audit_id`, `event`, `integrity_hash`, `previous_hash`,
`timestamp`), `event` always `"metadata_stored"`, `null` for a missing
previous hash. -/
def canonicalLogEntry (e : LogEntry) : String :=
  "\x7b\x22audit_id\x22: \x22" ++ escJson e.auditId ++
  "\x22, \x22event\x22: \x22metadata_stored\x22, \x22integrity_hash\x22: \x22" ++
  escJson e.integrityHash ++ "\x22, \x22previous_hash\x22: " ++
  (match e.previousHash with
   | none => "null"
   | some h => "\x22" ++ escJson h ++ "\x22") ++
  ", \x22timestamp\x22: \x22" ++ escJson e.timestamp ++ "\x22\x7d"

/-- `MetadataManager._get_previous_log_hash` over an abstract
`hashlib.sha256(·).hexdigest()` (`shaHex`). -/
def getPreviousLogHash (shaHex : String → String) (log : List LogEntry) :
    Option String :=
  match log.getLast? with
  | none => none
  | some e => some (shaHex (canonicalLogEntry e))

/-- The arguments of one `store_audit_metadata` call that reach the log
entry (`audit_id`, the computed integrity hash, the wall-clock timestamp). -/
structure StoreCall where
  auditId : String
  integrityHash : String
  timestamp : String
  deriving Repr

/-- `MetadataManager.store_audit_metadata`'s effect on the global tamper
log: append one entry chained to the previous one. -/
def storeAuditMetadata (shaHex : String → String) (log : List LogEntry)
    (c : StoreCall) : List LogEntry :=
  log ++ [{ auditId := c.auditId, timestamp := c.timestamp,
            integrityHash := c.integrityHash,
            previousHash := getPreviousLogHash shaHex log }]

/-- Run a sequence of stores on a fresh manager (empty log). -/
def runStores (shaHex : String → String) (calls : List StoreCall) :
    List LogEntry :=
  calls.foldl (storeAuditMetadata shaHex) []

/-- `MetadataManager._verify_log_chain`. -/
def verifyLogChain (shaHex : String → String) (log : List LogEntry) : Bool :=
  (List.range log.length).all (fun i =>
    if i = 0 then true
    else
      match log.get? i, log.get? (i - 1) with
      | some cur, some prev =>
          cur.previousHash = some (shaHex (canonicalLogEntry prev))
      | _, _ => true)

/-! ## Lazy capsule engine (`capsule.py`, plus `encrypt_capsule_data` from
`core.py` and `hash_capsule_comprehensive` from `merkle.py`) -/

/-- JSON-able metadata values occurring in `_sample_metadata`. -/
inductive JVal
  | s (v : String)
  | b (v : Bool)
  | n (v : Nat)
  deriving DecidableEq, Repr

/-- Render one metadata value as `json.dumps` does. -/
def JVal.dump : JVal → String
  | .s v => "\x22" ++ escJson v ++ "\x22"
  | .b true => "true"
  | .b false => "false"
  | .n v => toString v

/-- `json.dumps(m, sort_keys=True)` for a flat string-keyed map. -/
def dumpsMap (m : List (String × JVal)) : String :=
  let sorted := sortByKey m
  "\x7b" ++
    String.intercalate ", "
      (sorted.map (fun p => "\x22" ++ escJson p.1 ++ "\x22: " ++ p.2.dump)) ++
  "\x7d"

/-- `MasterKeyManager.encrypt_capsule_data`: derives the capsule key (no
session context), draws a fresh 12-byte nonce from the stream, encrypts, and
returns the dictionary `{"ciphertext": ..., "nonce": ..., "additional_data":
...}` — there is no separate tag entry.  Also returns the advanced stream
cursor. -/
def encryptCapsuleData (P : Prims) (m : MasterKeyManager)
    (sessionId sampleId : String) (data aad : Bytes)
    (rho : Nat → Nat) (k : Nat) :
    Except String (List (String × Bytes) × Nat) :=
  match getCapsuleKey P m sessionId sampleId none with
  | .error e => .error e
  | .ok capsuleKey =>
      let nonce := tokenBytes rho k NONCE_LENGTH
      let ciphertext := P.aesGcmEncrypt capsuleKey nonce data aad
      .ok ([("ciphertext", ciphertext), ("nonce", nonce), ("additional_data", aad)],
           k + NONCE_LENGTH)

/-- `CapsuleHashInfo` (dataclass, without the timestamp field). -/
structure CapsuleHashInfo where
  capsuleId : String
  capsuleHash : Bytes
  sampleDataHash : Bytes
  metadataHash : Bytes
  encryptionHash : Option Bytes
  deriving DecidableEq, Repr

/-- `b"|".join(components)`. -/
def joinPipe (components : List Bytes) : Bytes :=
  match components with
  | [] => []
  | c :: rest => rest.foldl (fun acc x => acc ++ strBytes "|" ++ x) c

/-- `MerkleTreeBuilder.hash_capsule_comprehensive` for a dict-shaped
encrypted payload: bytes values are rendered as hex in a key-sorted JSON
before hashing; the encryption-hash component is included only when the
digest is truthy (non-empty bytes). -/
def hashCapsuleComprehensive (P : Prims) (capsuleId : String)
    (sampleData : String) (metadata : List (String × JVal))
    (encryptedData : List (String × Bytes)) : CapsuleHashInfo :=
  let sampleDataHash := hashSample P sampleData
  let metadataHash := P.sha256 (strBytes (dumpsMap metadata))
  let encryptionHash :=
    if encryptedData.isEmpty then none
    else
      let serializable := encryptedData.map (fun p => (p.1, JVal.s (hexStr p.2)))
      some (P.sha256 (strBytes (dumpsMap serializable)))
  let components :=
    [strBytes ("capsule_id:" ++ capsuleId),
     strBytes "sample_hash:" ++ sampleDataHash,
     strBytes "metadata_hash:" ++ metadataHash] ++
    (match encryptionHash with
     | some eh => if eh.isEmpty then [] else [strBytes "encryption_hash:" ++ eh]
     | none => [])
  { capsuleId := capsuleId
    capsuleHash := P.sha256 (joinPipe components)
    sampleDataHash := sampleDataHash
    metadataHash := metadataHash
    encryptionHash := encryptionHash }

/-- `AuditCapsule` (dataclass); `created_at` is the audit-time clock value,
and the comprehensive hash info carries the fingerprint recorded in the
capsule metadata (`metadata["capsule_hash"]` etc.). -/
structure AuditCapsule where
  sampleId : String
  datasetId : String
  sessionId : String
  encryptedData : List (String × Bytes)
  merkleProof : MerkleProof
  capsuleHashInfo : CapsuleHashInfo
  createdAt : Nat
  deriving DecidableEq, Repr

/-- The `encrypted_data` block of `AuditCapsule.to_dict`: every bytes value
rendered as lowercase hex. -/
def AuditCapsule.encryptedDataDict (c : AuditCapsule) : List (String × String) :=
  c.encryptedData.map (fun p => (p.1, hexStr p.2))

/-- `LazyCapsuler` state. -/
structure LazyCapsuler where
  datasetId : String
  sessionId : String
  keyManager : MasterKeyManager
  /-- `merkle_builder._sample_registry` -/
  builderRegistry : List (String × DatasetRegistry)
  /-- `merkle_builder._audit_time_trees` -/
  auditTrees : List (String × AuditTree)
  /-- `merkle_builder._dataset_hashes` (cache) -/
  datasetHashes : List (String × DatasetHashInfo)
  /-- `merkle_builder._cached_proofs`, keyed `"audit_" + ds + ":" + sid` -/
  cachedProofs : List (String × MerkleProof)
  /-- `merkle_builder._chunk_size` -/
  chunkSize : Nat
  /-- `_samples` (plaintext payloads) -/
  samples : List (String × String)
  /-- `_sample_metadata` -/
  sampleMetadata : List (String × List (String × JVal))
  /-- `_materialized_capsules` -/
  materializedCapsules : List (String × AuditCapsule)
  deriving Repr

/-- `LazyCapsuler.__init__` with an explicit master-key salt. -/
def mkLazyCapsuler (datasetId passphrase sessionId : String) (salt : Bytes) :
    LazyCapsuler :=
  { datasetId := datasetId
    sessionId := sessionId
    keyManager := createSession { activeSessions := [] } sessionId passphrase datasetId salt
    builderRegistry := []
    auditTrees := []
    datasetHashes := []
    cachedProofs := []
    chunkSize := DEFAULT_CHUNK_SIZE
    samples := []
    sampleMetadata := []
    materializedCapsules := [] }

/-- The metadata enrichment performed by `add_sample`: user metadata updated
with `added_at`, `sample_size`, and the three lazy flags. -/
def enrichMetadata (userMeta : List (String × JVal)) (addedAt : String)
    (sampleData : String) : List (String × JVal) :=
  let m1 := updateA userMeta "added_at" (JVal.s addedAt)
  let m2 := updateA m1 "sample_size" (JVal.n sampleData.length)
  let m3 := updateA m2 "lazy_stored" (JVal.b true)
  let m4 := updateA m3 "encrypted" (JVal.b false)
  updateA m4 "audit_ready" (JVal.b false)

/-- `LazyCapsuler.add_sample`: stores the plaintext (overwriting any prior
entry with the same id), registers it with the Merkle builder, and stores
the enriched metadata.  Never fails. -/
def addSample (eng : LazyCapsuler) (sampleId sampleData : String)
    (userMeta : List (String × JVal)) (addedAt : String) : LazyCapsuler :=
  let reg := registerSampleForLazyProcessing
    (lookupA eng.builderRegistry eng.datasetId) sampleId sampleData
  { eng with
    samples := updateA eng.samples sampleId sampleData
    builderRegistry := updateA eng.builderRegistry eng.datasetId reg
    sampleMetadata := updateA eng.sampleMetadata sampleId
      (enrichMetadata userMeta addedAt sampleData) }

/-- `LazyCapsuler.materialize_capsule`.  Inputs beyond the engine state: the
audit-time clock `t` (`int(time.time())`) and the random stream `rho` with
cursor `k`.  Returns the capsule, the updated engine and the new cursor.
The first branch is the capsule cache: a previously materialized capsule is
returned as-is, consuming no randomness. -/
def materializeCapsule (P : Prims) (eng : LazyCapsuler) (sampleId : String)
    (t : Nat) (rho : Nat → Nat) (k : Nat) :
    Except String (AuditCapsule × LazyCapsuler × Nat) :=
  match lookupA eng.materializedCapsules sampleId with
  | some c => .ok (c, eng, k)
  | none =>
    match lookupA eng.samples sampleId with
    | none => .error ("Sample " ++ sampleId ++ " not found")
    | some sampleData =>
      -- build the Merkle tree over *all* registered samples during the audit
      match lookupA eng.builderRegistry eng.datasetId with
      | none => .error ("Dataset " ++ eng.datasetId ++ " not registered for lazy processing")
      | some reg =>
        match buildTreeDuringAudit P reg with
        | .error e => .error e
        | .ok tree =>
          -- comprehensive dataset hash (cache hit returns the stored info)
          let dhi := match lookupA eng.datasetHashes eng.datasetId with
            | some d => d
            | none => hashDatasetComprehensive P eng.chunkSize reg
          -- Merkle proof (proof cache keyed "audit_" + ds + ":" + sid)
          let proofKey := "audit_" ++ eng.datasetId ++ ":" ++ sampleId
          match (match lookupA eng.cachedProofs proofKey with
                 | some p => Except.ok p
                 | none => generateProofDuringAudit tree sampleId) with
          | .error e => .error e
          | .ok proof =>
            -- encrypt during audit with aad "sample:{id}:dataset:{ds}"
            let sampleBytes := strBytes sampleData
            let aad := strBytes ("sample:" ++ sampleId ++ ":dataset:" ++ eng.datasetId)
            match encryptCapsuleData P eng.keyManager eng.sessionId sampleId
                sampleBytes aad rho k with
            | .error e => .error e
            | .ok (encryptedData, cursor) =>
              -- comprehensive capsule fingerprint over a time-stamped capsule id
              let capsuleId := "capsule_" ++ eng.datasetId ++ "_" ++ sampleId ++ "_" ++ toString t
              let meta := (lookupA eng.sampleMetadata sampleId).getD []
              let chi := hashCapsuleComprehensive P capsuleId sampleData meta encryptedData
              let capsule : AuditCapsule :=
                { sampleId := sampleId
                  datasetId := eng.datasetId
                  sessionId := eng.sessionId
                  encryptedData := encryptedData
                  merkleProof := proof
                  capsuleHashInfo := chi
                  createdAt := t }
              let eng' : LazyCapsuler :=
                { eng with
                  auditTrees := updateA eng.auditTrees eng.datasetId tree
                  datasetHashes := updateA eng.datasetHashes eng.datasetId dhi
                  cachedProofs := updateA eng.cachedProofs proofKey proof
                  materializedCapsules := updateA eng.materializedCapsules sampleId capsule }
              .ok (capsule, eng', cursor)

/-- The audit package assembled by `generate_audit_package` (the fields the
claims touch). -/
structure AuditPackage where
  auditId : String
  datasetId : String
  sessionId : String
  requestedSamples : List String
  capsules : List AuditCapsule
  deriving Repr

/-- Materialize each requested capsule in order, threading engine and
cursor. -/
def materializeAll (P : Prims) (eng : LazyCapsuler) (sampleIds : List String)
    (t : Nat) (rho : Nat → Nat) (k : Nat) :
    Except String (List AuditCapsule × LazyCapsuler × Nat) :=
  match sampleIds with
  | [] => .ok ([], eng, k)
  | sid :: rest =>
      match materializeCapsule P eng sid t rho k with
      | .error e => .error e
      | .ok (c, eng', k') =>
          match materializeAll P eng' rest t rho k' with
          | .error e => .error e
          | .ok (cs, eng'', k'') => .ok (c :: cs, eng'', k'')

/-- `LazyCapsuler.generate_audit_package`: fails on an empty request,
otherwise lazily materializes every requested capsule. -/
def generateAuditPackage (P : Prims) (eng : LazyCapsuler)
    (sampleIds : List String) (t : Nat) (rho : Nat → Nat) (k : Nat) :
    Except String (AuditPackage × LazyCapsuler × Nat) :=
  if sampleIds.isEmpty then
    .error "No sample IDs provided for audit package"
  else
    match materializeAll P eng sampleIds t rho k with
    | .error e => .error e
    | .ok (capsules, eng', k') =>
        .ok ({ auditId := "audit_" ++ eng.datasetId ++ "_" ++ toString t
               datasetId := eng.datasetId
               sessionId := eng.sessionId
               requestedSamples := sampleIds
               capsules := capsules }, eng', k')

/-! ## Multi-model registry (`registry.py`) -/

/-- `ModelVersionRecord` (dataclass). -/
structure ModelVersionRecord where
  modelVersion : String
  datasetId : String
  datasetHash : String
  registeredAt : String
  modelType : String
  parentVersion : Option String
  deriving DecidableEq, Repr

/-- The plain-dictionary record stored by `create_version_checkpoint`
(it has no `dataset_hash` attribute). -/
structure CheckpointRecord where
  checkpointId : String
  modelVersion : String
  createdAt : String
  deriving DecidableEq, Repr

/-- A value of `MultiModelRegistry._registry`: either a `ModelVersionRecord`
or a checkpoint dictionary. -/
inductive RegistryEntry
  | mrec (r : ModelVersionRecord)
  | chk (c : CheckpointRecord)
  deriving DecidableEq, Repr

/-- Is this entry a checkpoint dictionary? -/
def RegistryEntry.isChk : RegistryEntry → Bool
  | .mrec _ => false
  | .chk _ => true

/-- `MultiModelRegistry` state (the `_registry` hashtable plus the
parent→children lineage index). -/
structure MultiModelRegistry where
  registry : List (String × RegistryEntry)
  versionLineage : List (String × List String)
  deriving Repr

/-- Python truthiness of an optional string (`if parent_version:`). -/
def truthyOpt : Option String → Bool
  | none => false
  | some s => s ≠ ""

/-- `MultiModelRegistry._create_registry_key`. -/
def createRegistryKey (modelVersion datasetHash : String) : String :=
  "model:" ++ modelVersion ++ ":dataset:" ++ datasetHash

/-- `MultiModelRegistry.register_model_dataset`: unconditionally stores the
record under its composite key and updates the lineage index; there is no
cycle check and no failure path.  Returns the registry key. -/
def registerModelDataset (reg : MultiModelRegistry)
    (modelVersion datasetId datasetHash : String) (registeredAt : String)
    (modelType : String) (parentVersion : Option String) :
    String × MultiModelRegistry :=
  let key := createRegistryKey modelVersion datasetHash
  let record : ModelVersionRecord :=
    { modelVersion := modelVersion, datasetId := datasetId,
      datasetHash := datasetHash, registeredAt := registeredAt,
      modelType := modelType, parentVersion := parentVersion }
  let lineage :=
    match parentVersion with
    | some p =>
        if truthyOpt parentVersion then
          updateA reg.versionLineage p
            ((lookupA reg.versionLineage p).getD [] ++ [modelVersion])
        else reg.versionLineage
    | none => reg.versionLineage
  (key, { registry := updateA reg.registry key (.mrec record)
          versionLineage := lineage })

/-- `MultiModelRegistry.create_version_checkpoint`: stores a plain-dict
checkpoint record in the same `_registry` map under `"checkpoint:" + id`. -/
def createVersionCheckpoint (reg : MultiModelRegistry)
    (modelVersion : String) (t : Nat) (createdAt : String) :
    String × MultiModelRegistry :=
  let checkpointId := "checkpoint_" ++ modelVersion ++ "_" ++ toString t
  let record : CheckpointRecord :=
    { checkpointId := checkpointId, modelVersion := modelVersion,
      createdAt := createdAt }
  (checkpointId,
   { reg with registry := updateA reg.registry ("checkpoint:" ++ checkpointId) (.chk record) })

/-- The value-iteration loop of `find_compatible_models` (`for record in
self._registry.values()`): touching a checkpoint dictionary's
`dataset_hash` attribute raises `AttributeError` (modelled as `.error`). -/
def findCompatibleGo (datasetHash : String) (modelType : Option String) :
    List RegistryEntry → List ModelVersionRecord →
      Except String (List ModelVersionRecord)
  | [], acc => .ok acc
  | .chk _ :: _, _ =>
      .error "AttributeError: dict object has no attribute dataset_hash"
  | .mrec r :: rest, acc =>
      if r.datasetHash = datasetHash ∧
         (modelType = none ∨ modelType = some r.modelType) then
        findCompatibleGo datasetHash modelType rest (acc ++ [r])
      else findCompatibleGo datasetHash modelType rest acc

/-- `MultiModelRegistry.find_compatible_models`: iterates every `_registry`
value and reads `record.dataset_hash` on each. -/
def findCompatibleModels (reg : MultiModelRegistry) (datasetHash : String)
    (modelType : Option String) : Except String (List ModelVersionRecord) :=
  findCompatibleGo datasetHash modelType (reg.registry.map Prod.snd) []

/-- Python `pattern in s` (substring test; the empty pattern matches). -/
def strContains (s p : String) : Bool :=
  if p = "" then true else (s.splitOn p).length > 1

/-- `MultiModelRegistry.get_selective_materialization_candidates`: skips
every value that is not a `ModelVersionRecord` before touching any
attribute, so it is total. -/
def getSelectiveMaterializationCandidates (reg : MultiModelRegistry)
    (modelTypeFilter datasetPattern : Option String) :
    List (String × String) :=
  (reg.registry.map Prod.snd).foldl
    (fun acc e =>
      match e with
      | .chk _ => acc
      | .mrec r =>
          if truthyOpt modelTypeFilter ∧ some r.modelType ≠ modelTypeFilter then acc
          else if truthyOpt datasetPattern ∧
              strContains r.datasetId (datasetPattern.getD "") = false then acc
          else acc ++ [(r.modelVersion, r.datasetHash)])
    []

/-- First registry value matching `_get_ancestors`' search: a
`ModelVersionRecord` for `v` with a truthy `parent_version`. -/
def findAncRecord (vals : List RegistryEntry) (v : String) :
    Option ModelVersionRecord :=
  vals.findSome? fun e =>
    match e with
    | .mrec r =>
        if r.modelVersion = v ∧ truthyOpt r.parentVersion then some r else none
    | .chk _ => none

/-- `MultiModelRegistry._get_ancestors`, which recurses through
`parent_version` links with **no** visited-set or depth guard, under an
explicit fuel bound: `none` means the recursion exceeded the fuel (on a
cyclic lineage it exceeds every fuel, i.e. the Python recursion never
terminates). -/
def getAncestorsFuel : Nat → List RegistryEntry → String → Option (List String)
  | 0, _, _ => none
  | fuel + 1, vals, v =>
      match findAncRecord vals v with
      | none => some []
      | some r =>
          let p := r.parentVersion.getD ""
          (getAncestorsFuel fuel vals p).map (fun rest => p :: rest)

/-! ## Helper lemmas -/

theorem lookupA_updateA_self {α : Type} (l : List (String × α)) (k : String) (v : α) :
    lookupA (updateA l k v) k = some v := by
  unfold lookupA updateA
  by_cases h : (l.find? (fun p => p.1 = k)).isSome
  · simp only [h, if_true]
    induction l with
    | nil => simp at h
    | cons p rest ih =>
        by_cases hp : p.1 = k
        · simp [List.find?, hp]
        · simp only [List.map_cons, if_neg hp]
          have h' : (rest.find? (fun q => q.1 = k)).isSome := by
            simpa [List.find?, hp] using h
          simpa [List.find?, hp] using ih h'
  · simp only [h, if_false]
    induction l with
    | nil => simp [List.find?]
    | cons p rest ih =>
        by_cases hp : p.1 = k
        · exact absurd (by simp [List.find?, hp]) h
        · have h' : ¬ (rest.find? (fun q => q.1 = k)).isSome := by
            simpa [List.find?, hp] using h
          simpa [List.find?, hp] using ih h'

theorem updateA_length {α : Type} (l : List (String × α)) (k : String) (v : α)
    (h : (l.find? (fun p => p.1 = k)).isSome) :
    (updateA l k v).length = l.length := by
  unfold updateA
  simp [h]

theorem foldl_append_eq_flatten {α β : Type} (f : α → List β) :
    ∀ (l : List α) (acc : List β),
      l.foldl (fun a x => a ++ f x) acc = acc ++ (l.map f).flatten
  | [], acc => by simp
  | x :: rest, acc => by
      simp [List.foldl_cons, foldl_append_eq_flatten f rest (acc ++ f x)]

theorem foldl_append_id_eq_flatten {β : Type} :
    ∀ (l : List (List β)) (acc : List β),
      l.foldl (· ++ ·) acc = acc ++ l.flatten
  | [], acc => by simp
  | x :: rest, acc => by
      simp [List.foldl_cons, foldl_append_id_eq_flatten rest (acc ++ x)]

/-- A fixed concrete interpretation of the primitives, used by the witness
and counterexample instantiations. -/
def testPrims : Prims :=
  { sha256 := fun l => [l.foldl (· + ·) 0 % 256, l.length % 256]
    hmacSha256 := fun k m => k ++ m
    pbkdf2 := fun p s i l => p ++ s ++ [i % 256, l % 256]
    aesGcmEncrypt := fun k n d a => k ++ n ++ d ++ a ++ List.replicate 16 0 }

/-- A concrete key manager holding one session. -/
def testMgr : MasterKeyManager :=
  createSession { activeSessions := [] } "s1" "pw" "ds" [5]

/-- The session stored in `testMgr`. -/
def testSess : KeySession := { datasetId := "ds", passphrase := "pw", salt := [5] }

/-! ## C1: capsule-key derivation -/

/-- The capsule-key formula as the specification states it:
`HMAC(HMAC(PBKDF2(passphrase, salt, 100000, 32), SHA-256(dataset_id)),
SHA-256(identifier))` with the identifier extended by `":" + ctx` only for a
supplied (truthy) session context. -/
def specCapsuleKeyFormula (P : Prims) (passphrase : String) (salt : Bytes)
    (datasetId sampleId : String) (sessionCtx : Option String) : Bytes :=
  P.hmacSha256
    (P.hmacSha256
      (P.pbkdf2 (strBytes passphrase) salt 100000 32)
      (P.sha256 (strBytes datasetId)))
    (P.sha256 (strBytes (capsuleIdentifier sampleId sessionCtx)))

/-- C1.  For a session holding `(passphrase, salt, dataset_id)`,
`MasterKeyManager.get_capsule_key` returns exactly
`HMAC(HMAC(PBKDF2(passphrase, salt, 100000, 32), SHA-256(dataset_id)),
SHA-256(str(sample_id)))` — the `":" + session_ctx` suffix entering the
identifier only when a session context is supplied — and two independent
runs (any two manager states holding the same session inputs) produce
bit-identical capsule keys. -/
theorem claim_C1 (P : Prims) (m₁ m₂ : MasterKeyManager)
    (sessionId sampleId : String) (ctx : Option String) (sess : KeySession)
    (h₁ : lookupA m₁.activeSessions sessionId = some sess)
    (h₂ : lookupA m₂.activeSessions sessionId = some sess) :
    getCapsuleKey P m₁ sessionId sampleId ctx =
      .ok (specCapsuleKeyFormula P sess.passphrase sess.salt sess.datasetId
            sampleId ctx)
    ∧ getCapsuleKey P m₁ sessionId sampleId ctx =
      getCapsuleKey P m₂ sessionId sampleId ctx := by
  unfold getCapsuleKey
  rw [h₁, h₂]
  exact ⟨rfl, rfl⟩

/-- Witness for C1 at a concrete session table. -/
theorem claim_C1_witness :
    lookupA testMgr.activeSessions "s1" = some testSess
    ∧ getCapsuleKey testPrims testMgr "s1" "x" none =
      .ok (specCapsuleKeyFormula testPrims "pw" [5] "ds" "x" none) := by
  refine ⟨by decide, ?_⟩
  have h := claim_C1 testPrims testMgr testMgr "s1" "x" none testSess
    (by decide) (by decide)
  exact h.1

/-! ## C2: audit-time Merkle tree construction -/

theorem levelUp_get (sha : Bytes → Bytes) :
    ∀ (l : List Bytes) (i : Nat), i < (levelUp sha l).length →
      (levelUp sha l).getD i [] =
        sha (l.getD (2 * i) [] ++
          (if 2 * i + 1 < l.length then l.getD (2 * i + 1) [] else l.getD (2 * i) []))
  | [], i, hi => by simp [levelUp] at hi
  | [x], i, hi => by
      simp only [levelUp, List.length_singleton] at hi
      interval_cases i
      simp [levelUp]
  | x :: y :: rest, 0, _ => by
      simp only [levelUp, List.getD, List.length_cons]
      have : 1 < rest.length + 1 + 1 := by omega
      simp [this]
  | x :: y :: rest, i + 1, hi => by
      have hi' : i < (levelUp sha rest).length := by
        simpa [levelUp] using hi
      have ih := levelUp_get sha rest i hi'
      simp only [levelUp, List.getD_cons_succ] at *
      rw [ih]
      have e1 : 2 * (i + 1) = 2 * i + 1 + 1 := by ring
      have e2 : 2 * (i + 1) + 1 = 2 * i + 1 + 1 + 1 := by ring
      simp only [e1, e2, List.getD_cons_succ, List.length_cons]
      congr 2
      by_cases hlt : 2 * i + 1 < rest.length
      · rw [if_pos hlt, if_pos (by omega)]
      · rw [if_neg hlt, if_neg (by omega)]

theorem buildLevels_le_one (sha : Bytes → Bytes) (l : List Bytes)
    (h : l.length ≤ 1) : buildLevels sha l = [l] := by
  unfold buildLevels
  rcases hl : l.length with _ | n
  · rfl
  · have hn : n = 0 := by omega
    subst hn
    simp [buildLevelsAux, hl]

theorem buildLevels_gt_one (sha : Bytes → Bytes) (l : List Bytes)
    (h : 1 < l.length) : buildLevels sha l = l :: buildLevels sha (levelUp sha l) := by
  obtain ⟨m, hm⟩ : ∃ m, l.length = m + 2 := ⟨l.length - 2, by omega⟩
  show buildLevelsAux sha l.length l =
    l :: buildLevelsAux sha (levelUp sha l).length (levelUp sha l)
  rw [hm]
  show (if l.length ≤ 1 then [l] else l :: buildLevelsAux sha (m + 1) (levelUp sha l)) = _
  rw [if_neg (by omega)]
  congr 1
  apply buildLevelsAux_mono
  · rw [levelUp_length]
    have := half_le_sub_one l.length (by omega)
    omega
  · omega

/-- A concrete three-sample dataset registry (payloads `"a"`, `"b"`, `"c"`
in registration order). -/
def testReg3 : DatasetRegistry :=
  { plaintextSamples :=
      [("1", { rawData := "a", sampleIndex := 0 }),
       ("2", { rawData := "b", sampleIndex := 1 }),
       ("3", { rawData := "c", sampleIndex := 2 })]
    sampleCount := 3 }

/-- C2.  Over a dataset whose three registered payloads are `"a"`, `"b"`,
`"c"` in registration order, `build_tree_during_audit` produces the root
`SHA-256( SHA-256(h1‖h2) ‖ SHA-256(h3‖h3) )` with `hᵢ` the SHA-256 of the
i-th payload; and in general every parent at every level is
`SHA-256(left ‖ right)`, an unpaired last node being paired with itself
(duplicate-last rule). -/
theorem claim_C2 (P : Prims) (r : DatasetRegistry)
    (h3 : r.plaintextSamples.map (fun p => p.2.rawData) = ["a", "b", "c"]) :
    (∃ t, buildTreeDuringAudit P r = .ok t ∧
      t.rootHash =
        P.sha256 (P.sha256 (hashSample P "a" ++ hashSample P "b") ++
                  P.sha256 (hashSample P "c" ++ hashSample P "c")))
    ∧ ∀ (lvl : List Bytes) (i : Nat), i < (levelUp P.sha256 lvl).length →
        (levelUp P.sha256 lvl).getD i [] =
          P.sha256 (lvl.getD (2 * i) [] ++
            (if 2 * i + 1 < lvl.length then lvl.getD (2 * i + 1) []
             else lvl.getD (2 * i) [])) := by
  constructor
  · match hr : r.plaintextSamples with
    | [] => rw [hr] at h3; simp at h3
    | [_] => rw [hr] at h3; simp at h3
    | [_, _] => rw [hr] at h3; simp at h3
    | p1 :: p2 :: p3 :: p4 :: rest => rw [hr] at h3; simp at h3
    | [p1, p2, p3] =>
        rw [hr] at h3
        simp only [List.map_cons, List.map_nil, List.cons.injEq, and_true] at h3
        obtain ⟨ha, hb, hc⟩ := h3
        have hL : buildLevels P.sha256
            [hashSample P "a", hashSample P "b", hashSample P "c"] =
            [[hashSample P "a", hashSample P "b", hashSample P "c"],
             [P.sha256 (hashSample P "a" ++ hashSample P "b"),
              P.sha256 (hashSample P "c" ++ hashSample P "c")],
             [P.sha256 (P.sha256 (hashSample P "a" ++ hashSample P "b") ++
                        P.sha256 (hashSample P "c" ++ hashSample P "c"))]] := by
          rw [buildLevels_gt_one _ _ (by simp)]
          rw [show levelUp P.sha256
                [hashSample P "a", hashSample P "b", hashSample P "c"] =
              [P.sha256 (hashSample P "a" ++ hashSample P "b"),
               P.sha256 (hashSample P "c" ++ hashSample P "c")] from rfl]
          rw [buildLevels_gt_one _ _ (by simp)]
          rw [show levelUp P.sha256
                [P.sha256 (hashSample P "a" ++ hashSample P "b"),
                 P.sha256 (hashSample P "c" ++ hashSample P "c")] =
              [P.sha256 (P.sha256 (hashSample P "a" ++ hashSample P "b") ++
                         P.sha256 (hashSample P "c" ++ hashSample P "c"))] from rfl]
          rw [buildLevels_le_one _ _ (by simp)]
        refine ⟨{ rootHash := P.sha256 (P.sha256 (hashSample P "a" ++ hashSample P "b") ++
                    P.sha256 (hashSample P "c" ++ hashSample P "c"))
                  treeLevels :=
                    [[hashSample P "a", hashSample P "b", hashSample P "c"],
                     [P.sha256 (hashSample P "a" ++ hashSample P "b"),
                      P.sha256 (hashSample P "c" ++ hashSample P "c")],
                     [P.sha256 (P.sha256 (hashSample P "a" ++ hashSample P "b") ++
                                P.sha256 (hashSample P "c" ++ hashSample P "c"))]]
                  sampleCount := 3
                  sampleMapping :=
                    [(p1.1, 0, hashSample P "a"), (p2.1, 1, hashSample P "b"),
                     (p3.1, 2, hashSample P "c")] }, ?_, rfl⟩
        unfold buildTreeDuringAudit
        rw [hr]
        simp only [List.map_cons, List.map_nil, List.enum, List.enumFrom]
        rw [ha, hb, hc, hL]
        rfl
  · exact fun lvl i hi => levelUp_get P.sha256 lvl i hi

/-- Witness for C2 at the concrete three-sample registry and a concrete odd
level. -/
theorem claim_C2_witness :
    (testReg3.plaintextSamples.map (fun p => p.2.rawData) = ["a", "b", "c"])
    ∧ (∃ t, buildTreeDuringAudit testPrims testReg3 = .ok t ∧
        t.rootHash =
          testPrims.sha256 (testPrims.sha256 (hashSample testPrims "a" ++ hashSample testPrims "b") ++
            testPrims.sha256 (hashSample testPrims "c" ++ hashSample testPrims "c")))
    ∧ (levelUp testPrims.sha256 [[1], [2], [3]]).getD 1 [] =
        testPrims.sha256 ([3] ++ [3]) := by
  have h := claim_C2 testPrims testReg3 (by decide)
  exact ⟨by decide, h.1, by simpa using h.2 [[1], [2], [3]] 1 (by decide)⟩

/-! ## C3: audit-package proof verification -/

/-- A package whose single capsule carries a self-consistent proof anchored
to root `[0]`, while the package's `merkle_tree_info` root is `[1]`. -/
def pkgC3 : AuditPackageView :=
  { hasAuditId := true
    hasDatasetId := true
    hasMaterializedCapsules := true
    hasMerkleTreeInfo := true
    capsuleProofs :=
      [{ sampleId := "1", sampleHash := [0], proofPath := [],
         rootHash := [0], treeSize := 1 }]
    merkleTreeRoot := [1]
    performanceMetrics := some true }

/-- C3 counterexample.  `verify_audit_package` reports the Merkle proofs of
`pkgC3` valid — and the package overall valid — although the root
reconstructed from its capsule's proof (`[0]`) disagrees with the root
stated in the package's `merkle_tree_info` (`[1]`): the package root is
never consulted. -/
theorem claim_C3_counterexample :
    (verifyAuditPackage testPrims.sha256 pkgC3).merkleProofsValid = true
    ∧ (verifyAuditPackage testPrims.sha256 pkgC3).overallValid = true
    ∧ reconstructRoot testPrims.sha256 [0] [] ≠ pkgC3.merkleTreeRoot := by
  refine ⟨by decide, by decide, by decide⟩

/-- C3 (amended).  `verify_audit_package` re-verifies each capsule's proof
only against the root carried in the proof itself (`verify_proof` is called
with no expected root, which defaults to `proof.root_hash`); the package's
`merkle_tree_info` root plays no part, so the Merkle check passes exactly
when every capsule's path reconstructs its own stated root. -/
theorem claim_C3 (sha : Bytes → Bytes) (pkg : AuditPackageView) :
    (verifyAuditPackage sha pkg).merkleProofsValid = true ↔
      ∀ p ∈ pkg.capsuleProofs,
        reconstructRoot sha p.sampleHash p.proofPath = p.rootHash := by
  simp [verifyAuditPackage, verifyProof, MerkleProof.verify, List.all_eq_true]

/-! ## C4: comprehensive dataset hashing -/

/-- The `(sample_id, bytes)` list `hash_dataset_comprehensive` assembles from
a dataset registry (insertion order). -/
def regSamples (r : DatasetRegistry) : List (String × Bytes) :=
  r.plaintextSamples.map (fun p => (p.1, strBytes p.2.rawData))

/-- The per-sample entry as a function of the pair. -/
def entryOf (p : String × Bytes) : Bytes :=
  sampleEntry p.1 p.2

theorem chunksOf_nil {α : Type} (c : Nat) : chunksOf c ([] : List α) = [] := by
  cases c <;> rfl

theorem chunksOf_cons {α : Type} (c' : Nat) (x : α) (xs : List α) :
    chunksOf (c' + 1) (x :: xs) =
      (x :: xs).take (c' + 1) :: chunksOf (c' + 1) ((x :: xs).drop (c' + 1)) := by
  show chunksOfAux (xs.length + 1) (c' + 1) (x :: xs) = _
  show (x :: xs).take (c' + 1) :: chunksOfAux xs.length (c' + 1) ((x :: xs).drop (c' + 1)) = _
  congr 1
  apply chunksOfAux_mono <;> simp <;> omega

theorem chunksOf_eq_range {α : Type} (c : Nat) (hc : 0 < c) :
    ∀ (n : Nat) (l : List α), l.length ≤ n → l ≠ [] →
      chunksOf c l =
        (List.range ((l.length - 1) / c + 1)).map
          (fun k => (l.drop (c * k)).take c)
  | 0, l, hl, hne => by
      cases l with
      | nil => exact absurd rfl hne
      | cons x xs => simp at hl
  | n + 1, l, hl, hne => by
      cases l with
      | nil => exact absurd rfl hne
      | cons x xs =>
        obtain ⟨c', rfl⟩ : ∃ c', c = c' + 1 := ⟨c - 1, by omega⟩
        rw [chunksOf_cons]
        have hN : ((x :: xs).length - 1) / (c' + 1) + 1 =
            xs.length / (c' + 1) + 1 := by simp
        by_cases hsmall : xs.length < c' + 1
        · have hdrop : (x :: xs).drop (c' + 1) = [] := by
            apply List.drop_eq_nil_of_le
            simp; omega
          rw [hdrop, chunksOf_nil]
          have : xs.length / (c' + 1) = 0 := Nat.div_eq_of_lt hsmall
          rw [hN, this]
          rw [show List.range 1 = [0] from rfl]
          simp
        · push_neg at hsmall
          have hdropne : (x :: xs).drop (c' + 1) ≠ [] := by
            intro hcon
            have := congrArg List.length hcon
            simp at this
            omega
          have hdlen : ((x :: xs).drop (c' + 1)).length ≤ n := by
            simp at hl ⊢
            omega
          rw [chunksOf_eq_range (c' + 1) hc n _ hdlen hdropne]
          have hnum : ((x :: xs).drop (c' + 1)).length - 1 = xs.length - (c' + 1) := by
            simp
            omega
          have hlen2 : (((x :: xs).drop (c' + 1)).length - 1) / (c' + 1) + 1 =
              (xs.length - (c' + 1)) / (c' + 1) + 1 := by rw [hnum]
          have hsplit : xs.length / (c' + 1) = (xs.length - (c' + 1)) / (c' + 1) + 1 := by
            conv_lhs => rw [show xs.length = (xs.length - (c' + 1)) + (c' + 1) from by omega]
            rw [Nat.add_div_right _ hc]
          conv_rhs => rw [hN, hsplit, List.range_succ_eq_map]
          conv_rhs => simp only [List.map_cons, List.map_map]
          rw [hlen2]
          congr 1
          apply List.map_congr_left
          intro a _
          simp only [Function.comp_apply, List.drop_drop, Nat.mul_succ]
          congr 2
          ring

theorem enum_map_range {α : Type} (f : Nat → α) (N : Nat) :
    (List.map f (List.range N)).enum = (List.range N).map (fun k => (k, f k)) := by
  rw [List.enum_eq_zip_range, List.length_map, List.length_range]
  nth_rewrite 1 [← List.map_id (List.range N)]
  rw [List.zip_map']
  rfl

/-- C4.  `hash_dataset_comprehensive` on a registry with fewer than 5000
samples returns the single SHA-256 over the concatenated
`"sample_id:{id}|data:" ‖ bytes ‖ "|"` entries of the id-sorted samples with
no chunk hashes; with 5000 or more samples it returns the chunk hashes of
the 1000-sample slices of the sorted list, indexed in order, and the
SHA-256 of their concatenation as the dataset hash. -/
theorem claim_C4 (P : Prims) (r : DatasetRegistry) :
    ((regSamples r).length < LARGE_DATASET_THRESHOLD →
      (hashDatasetComprehensive P DEFAULT_CHUNK_SIZE r).datasetHash =
        P.sha256 (((sortById (regSamples r)).map entryOf).flatten)
      ∧ (hashDatasetComprehensive P DEFAULT_CHUNK_SIZE r).chunkHashes = [])
    ∧ (LARGE_DATASET_THRESHOLD ≤ (regSamples r).length →
      (hashDatasetComprehensive P DEFAULT_CHUNK_SIZE r).chunkHashes =
        (List.range (((regSamples r).length - 1) / DEFAULT_CHUNK_SIZE + 1)).map
          (fun k => (k, P.sha256 ((((sortById (regSamples r)).drop
            (DEFAULT_CHUNK_SIZE * k)).take DEFAULT_CHUNK_SIZE).map entryOf).flatten))
      ∧ (hashDatasetComprehensive P DEFAULT_CHUNK_SIZE r).datasetHash =
        P.sha256 (((List.range (((regSamples r).length - 1) / DEFAULT_CHUNK_SIZE + 1)).map
          (fun k => P.sha256 ((((sortById (regSamples r)).drop
            (DEFAULT_CHUNK_SIZE * k)).take DEFAULT_CHUNK_SIZE).map entryOf).flatten)).flatten)) := by
  have hslen : (sortById (regSamples r)).length = (regSamples r).length :=
    sortByKey_length (regSamples r)
  have hpos : 0 < LARGE_DATASET_THRESHOLD := by decide
  constructor
  · intro h
    have hnot : ¬ ((regSamples r).length ≥ LARGE_DATASET_THRESHOLD) := by omega
    simp only [hashDatasetComprehensive, regSamples] at hnot ⊢
    rw [if_neg hnot]
    simp only [hashSmallDatasetSingle]
    rw [foldl_append_eq_flatten (fun p : String × Bytes => sampleEntry p.1 p.2) _ []]
    refine ⟨rfl, ?_⟩
    simp
  · intro h
    have hge : (regSamples r).length ≥ LARGE_DATASET_THRESHOLD := h
    have hne : sortById (regSamples r) ≠ [] := by
      intro hcon
      have hlen0 : (regSamples r).length = 0 := by
        rw [← hslen, hcon]
        rfl
      omega
    have hchunks := chunksOf_eq_range DEFAULT_CHUNK_SIZE (by decide)
      (sortById (regSamples r)).length (sortById (regSamples r)) le_rfl hne
    rw [hslen] at hchunks
    simp only [hashDatasetComprehensive, regSamples] at hge hchunks ⊢
    rw [if_pos hge]
    simp only [hashLargeDatasetChunked]
    simp only [foldl_append_eq_flatten (fun p : String × Bytes => sampleEntry p.1 p.2),
      List.nil_append]
    rw [hchunks]
    simp only [List.map_map, Function.comp]
    rw [foldl_append_id_eq_flatten, List.nil_append, enum_map_range]
    exact ⟨rfl, rfl⟩

/-- A concrete two-sample registry (below the chunking threshold). -/
def smallRegC4 : DatasetRegistry :=
  { plaintextSamples :=
      [("b", { rawData := "y", sampleIndex := 0 }),
       ("a", { rawData := "x", sampleIndex := 1 })]
    sampleCount := 2 }

/-- A concrete 5000-sample registry (at the chunking threshold). -/
def bigRegC4 : DatasetRegistry :=
  { plaintextSamples := List.replicate 5000 ("s", { rawData := "", sampleIndex := 0 })
    sampleCount := 5000 }

/-- Witness for C4: both thresholds hold at concrete registries on which the
theorem applies. -/
theorem claim_C4_witness :
    ((regSamples smallRegC4).length < LARGE_DATASET_THRESHOLD
      ∧ (hashDatasetComprehensive testPrims DEFAULT_CHUNK_SIZE smallRegC4).chunkHashes = [])
    ∧ (LARGE_DATASET_THRESHOLD ≤ (regSamples bigRegC4).length
      ∧ (hashDatasetComprehensive testPrims DEFAULT_CHUNK_SIZE bigRegC4).chunkHashes ≠ []) := by
  have hs := (claim_C4 testPrims smallRegC4).1 (by decide)
  have h5 : (regSamples bigRegC4).length = 5000 := by
    unfold regSamples bigRegC4
    rw [List.length_map, List.length_replicate]
  have hbLen : LARGE_DATASET_THRESHOLD ≤ (regSamples bigRegC4).length := by
    rw [h5]
    decide
  have hb := (claim_C4 testPrims bigRegC4).2 hbLen
  refine ⟨⟨by decide, hs.2⟩, hbLen, ?_⟩
  rw [hb.1]
  intro hcon
  have hlen := congrArg List.length hcon
  rw [List.length_map, List.length_range, h5] at hlen
  exact absurd hlen (by decide)

/-! ## C5: tamper-log hash chain -/

/-- Every entry after the first links to the SHA-256 of the canonical JSON of
its predecessor. -/
def ChainOK (shaHex : String → String) (log : List LogEntry) : Prop :=
  ∀ i e e', 0 < i → log.get? i = some e → log.get? (i - 1) = some e' →
    e.previousHash = some (shaHex (canonicalLogEntry e'))

/-- The first entry carries no previous hash. -/
def FirstOK (log : List LogEntry) : Prop :=
  ∀ e, log.get? 0 = some e → e.previousHash = none

theorem store_chain (shaHex : String → String) (log : List LogEntry)
    (c : StoreCall) (h : ChainOK shaHex log) :
    ChainOK shaHex (storeAuditMetadata shaHex log c) := by
  intro i e e' hi hgi hgi'
  unfold storeAuditMetadata at hgi hgi'
  by_cases hlt : i < log.length
  · rw [List.get?_append hlt] at hgi
    rw [List.get?_append (by omega)] at hgi'
    exact h i e e' hi hgi hgi'
  · have hiLen : i = log.length := by
      rcases List.get?_eq_some.mp hgi with ⟨hbound, _⟩
      simp at hbound
      omega
    subst hiLen
    rw [List.get?_append_right le_rfl] at hgi
    simp at hgi
    rw [List.get?_append (by omega)] at hgi'
    have hlast : log.getLast? = some e' := by
      rw [List.getLast?_eq_get?]
      exact hgi'
    rw [← hgi]
    simp [getPreviousLogHash, hlast]

theorem store_first (shaHex : String → String) (log : List LogEntry)
    (c : StoreCall) (h : FirstOK log) :
    FirstOK (storeAuditMetadata shaHex log c) := by
  intro e hge
  unfold storeAuditMetadata at hge
  cases log with
  | nil =>
      simp at hge
      rw [← hge]
      simp [getPreviousLogHash]
  | cons x xs =>
      rw [List.get?_append (by simp)] at hge
      exact h e hge

theorem verify_of_chain (shaHex : String → String) (log : List LogEntry)
    (h : ChainOK shaHex log) : verifyLogChain shaHex log = true := by
  unfold verifyLogChain
  rw [List.all_eq_true]
  intro i hi
  rw [List.mem_range] at hi
  by_cases h0 : i = 0
  · simp [h0]
  · have hi1 : i - 1 < log.length := by omega
    have he : log.get? i = some (log.get ⟨i, hi⟩) := List.get?_eq_get hi
    have he' : log.get? (i - 1) = some (log.get ⟨i - 1, hi1⟩) := List.get?_eq_get hi1
    have hchain := h i _ _ (by omega) he he'
    have he2 : log[i]? = some (log.get ⟨i, hi⟩) := by
      rw [← List.get?_eq_getElem?]
      exact he
    have he2' : log[i - 1]? = some (log.get ⟨i - 1, hi1⟩) := by
      rw [← List.get?_eq_getElem?]
      exact he'
    simp only [h0, if_false]
    rw [he, he']
    simpa using hchain

/-- C5.  After any sequence of `store_audit_metadata` calls on a fresh
`MetadataManager`, every tamper-log entry at index `i > 0` carries
`previous_hash = SHA-256(canonical_json(log[i-1]))`, the first entry carries
none, and `_verify_log_chain` accepts the log. -/
theorem claim_C5 (shaHex : String → String) (calls : List StoreCall) :
    ChainOK shaHex (runStores shaHex calls)
    ∧ FirstOK (runStores shaHex calls)
    ∧ verifyLogChain shaHex (runStores shaHex calls) = true := by
  have main : ∀ (cs : List StoreCall) (log : List LogEntry),
      ChainOK shaHex log → FirstOK log →
      ChainOK shaHex (cs.foldl (storeAuditMetadata shaHex) log)
      ∧ FirstOK (cs.foldl (storeAuditMetadata shaHex) log) := by
    intro cs
    induction cs with
    | nil => exact fun log h1 h2 => ⟨h1, h2⟩
    | cons c rest ih =>
        intro log h1 h2
        exact ih _ (store_chain shaHex log c h1) (store_first shaHex log c h2)
  have hempty1 : ChainOK shaHex [] := by
    intro i e e' _ hg _
    simp at hg
  have hempty2 : FirstOK [] := by
    intro e hg
    simp at hg
  obtain ⟨h1, h2⟩ := main calls [] hempty1 hempty2
  exact ⟨h1, h2, verify_of_chain shaHex _ h1⟩

/-- Three concrete store calls. -/
def calls3 : List StoreCall :=
  [{ auditId := "a1", integrityHash := "h1", timestamp := "t1" },
   { auditId := "a2", integrityHash := "h2", timestamp := "t2" },
   { auditId := "a3", integrityHash := "h3", timestamp := "t3" }]

/-- Witness for C5 at three concrete stores (with the identity digest
stand-in): the chain verifies and the third entry links to the second. -/
theorem claim_C5_witness :
    verifyLogChain (fun s => s) (runStores (fun s => s) calls3) = true
    ∧ ((runStores (fun s => s) calls3).get? 2).map LogEntry.previousHash ≠
        some none := by
  refine ⟨(claim_C5 (fun s => s) calls3).2.2, by decide⟩

/-! ## C6: duplicate sample registration -/

/-- An engine on which `add_sample("x", "v1")` then `add_sample("x", "v2")`
were called. -/
def engC6 : LazyCapsuler :=
  addSample (addSample (mkLazyCapsuler "ds" "pw" "sess" [0]) "x" "v1" [] "t1")
    "x" "v2" [] "t2"

/-- C6 counterexample.  Re-adding sample id `"x"` does not fail with
`DuplicateSample` and does not leave the state unchanged: the stored payload
is silently replaced by `"v2"` and the builder's `sample_count` is
incremented to 2 although only one sample is stored. -/
theorem claim_C6_counterexample :
    lookupA engC6.samples "x" = some "v2"
    ∧ (lookupA engC6.builderRegistry "ds").map DatasetRegistry.sampleCount = some 2
    ∧ (lookupA engC6.builderRegistry "ds").map
        (fun r => r.plaintextSamples.length) = some 1 := by
  refine ⟨by decide, by decide, by decide⟩

/-- C6 (amended).  `add_sample` performs no duplicate check and never fails:
a second call with an already-registered `sample_id` silently replaces the
stored payload (keeping its position), re-registers the entry with a fresh
`sample_index`, and increments the Merkle registry's `sample_count` again,
so the count no longer equals the number of stored samples; there is no
configuration to reject or allow duplicates. -/
theorem claim_C6 (eng : LazyCapsuler) (sid data₂ : String)
    (meta : List (String × JVal)) (ts : String) (reg : DatasetRegistry)
    (hs : (lookupA eng.samples sid).isSome = true)
    (hr : lookupA eng.builderRegistry eng.datasetId = some reg)
    (hreg : (reg.plaintextSamples.find? (fun p => p.1 = sid)).isSome = true) :
    lookupA (addSample eng sid data₂ meta ts).samples sid = some data₂
    ∧ lookupA (addSample eng sid data₂ meta ts).builderRegistry eng.datasetId =
        some { plaintextSamples := updateA reg.plaintextSamples sid
                 { rawData := data₂, sampleIndex := reg.sampleCount }
               sampleCount := reg.sampleCount + 1 }
    ∧ (updateA reg.plaintextSamples sid
          { rawData := data₂, sampleIndex := reg.sampleCount }).length =
        reg.plaintextSamples.length := by
  refine ⟨?_, ?_, updateA_length _ _ _ hreg⟩
  · exact lookupA_updateA_self eng.samples sid data₂
  · show lookupA (updateA eng.builderRegistry eng.datasetId
      (registerSampleForLazyProcessing
        (lookupA eng.builderRegistry eng.datasetId) sid data₂)) eng.datasetId = _
    rw [hr]
    unfold registerSampleForLazyProcessing
    simp only [Option.getD_some]
    exact lookupA_updateA_self _ _ _

/-- The engine after the first `add_sample("x", "v1")`. -/
def engC6a : LazyCapsuler :=
  addSample (mkLazyCapsuler "ds" "pw" "sess" [0]) "x" "v1" [] "t1"

/-- The builder registry held by `engC6a`. -/
def regC6 : DatasetRegistry :=
  { plaintextSamples := [("x", { rawData := "v1", sampleIndex := 0 })]
    sampleCount := 1 }

/-- Witness for C6 at the concrete duplicate registration. -/
theorem claim_C6_witness :
    (lookupA engC6a.samples "x").isSome = true
    ∧ lookupA engC6a.builderRegistry engC6a.datasetId = some regC6
    ∧ (regC6.plaintextSamples.find? (fun p => p.1 = "x")).isSome = true
    ∧ lookupA (addSample engC6a "x" "v2" [] "t2").samples "x" = some "v2" := by
  refine ⟨by decide, by decide, by decide, ?_⟩
  exact (claim_C6 engC6a "x" "v2" [] "t2" regC6 (by decide) (by decide) (by decide)).1

/-! ## C7: encrypted-data layout of materialized capsules -/

/-- A fixed random stream. -/
def exRho : Nat → Nat := fun i => i + 1

/-- One concrete materialization on the one-sample engine. -/
def runC7 : Except String (AuditCapsule × LazyCapsuler × Nat) :=
  materializeCapsule testPrims engC6a "x" 42 exRho 0

/-- C7 counterexample.  The materialized capsule's `encrypted_data` holds
exactly the keys `ciphertext`, `nonce` and `additional_data`: there is no
separate `tag` field (the AES-GCM tag stays embedded in the ciphertext) and
no field named `aad`. -/
theorem claim_C7_counterexample :
    (runC7.toOption.map (fun r => r.1.encryptedData.map Prod.fst)) =
      some ["ciphertext", "nonce", "additional_data"]
    ∧ (runC7.toOption.map
        (fun r => (r.1.encryptedData.map Prod.fst).contains "tag")) = some false
    ∧ (runC7.toOption.map
        (fun r => (r.1.encryptedData.map Prod.fst).contains "aad")) = some false := by
  refine ⟨by decide, by decide, by decide⟩

/-- C7 (amended).  A freshly materialized capsule's `encrypted_data` holds
exactly `ciphertext` (the AEAD output, which carries the GCM tag inside),
the fresh 12-byte `nonce`, and the AAD under the key `additional_data`; the
serialized capsule renders each of these bytes fields as lowercase hex. -/
theorem claim_C7 (P : Prims) (eng : LazyCapsuler) (sid : String) (t : Nat)
    (rho : Nat → Nat) (k : Nat) (data : String) (reg : DatasetRegistry)
    (tree : AuditTree) (prf : MerkleProof) (sess : KeySession)
    (hcache : lookupA eng.materializedCapsules sid = none)
    (hsamp : lookupA eng.samples sid = some data)
    (hreg : lookupA eng.builderRegistry eng.datasetId = some reg)
    (htree : buildTreeDuringAudit P reg = .ok tree)
    (hpc : lookupA eng.cachedProofs ("audit_" ++ eng.datasetId ++ ":" ++ sid) = none)
    (hgen : generateProofDuringAudit tree sid = .ok prf)
    (hsess : lookupA eng.keyManager.activeSessions eng.sessionId = some sess) :
    ∃ c eng', materializeCapsule P eng sid t rho k = .ok (c, eng', k + NONCE_LENGTH)
      ∧ c.encryptedData =
          [("ciphertext", P.aesGcmEncrypt
              (specCapsuleKeyFormula P sess.passphrase sess.salt sess.datasetId sid none)
              (tokenBytes rho k NONCE_LENGTH) (strBytes data)
              (strBytes ("sample:" ++ sid ++ ":dataset:" ++ eng.datasetId))),
           ("nonce", tokenBytes rho k NONCE_LENGTH),
           ("additional_data",
            strBytes ("sample:" ++ sid ++ ":dataset:" ++ eng.datasetId))]
      ∧ (tokenBytes rho k NONCE_LENGTH).length = NONCE_LENGTH
      ∧ c.encryptedDataDict = c.encryptedData.map (fun p => (p.1, hexStr p.2)) := by
  unfold materializeCapsule encryptCapsuleData getCapsuleKey
  rw [hcache, hsamp, hreg]
  simp only [htree, hpc, hgen, hsess]
  exact ⟨_, _, rfl, rfl, by simp [tokenBytes], rfl⟩

/-- The audit-time tree built from `regC6` under `testPrims`. -/
def treeC7 : AuditTree :=
  { rootHash := [167, 2], treeLevels := [[[167, 2]]], sampleCount := 1,
    sampleMapping := [("x", 0, [167, 2])] }

/-- The inclusion proof of sample `"x"` in `treeC7`. -/
def prfC7 : MerkleProof :=
  { sampleId := "x", sampleHash := [167, 2], proofPath := [],
    rootHash := [167, 2], treeSize := 1 }

/-- The key session held by `engC6a`. -/
def sessC7 : KeySession :=
  { datasetId := "ds", passphrase := "pw", salt := [0] }

/-- Witness for C7 at the concrete one-sample engine. -/
theorem claim_C7_witness :
    lookupA engC6a.materializedCapsules "x" = none
    ∧ lookupA engC6a.samples "x" = some "v1"
    ∧ lookupA engC6a.builderRegistry engC6a.datasetId = some regC6
    ∧ buildTreeDuringAudit testPrims regC6 = .ok treeC7
    ∧ lookupA engC6a.cachedProofs ("audit_" ++ engC6a.datasetId ++ ":" ++ "x") = none
    ∧ generateProofDuringAudit treeC7 "x" = .ok prfC7
    ∧ lookupA engC6a.keyManager.activeSessions engC6a.sessionId = some sessC7
    ∧ ∃ c eng', materializeCapsule testPrims engC6a "x" 42 exRho 0 =
        .ok (c, eng', 0 + NONCE_LENGTH) := by
  refine ⟨by decide, by decide, by decide, by decide, by decide, by decide,
    by decide, ?_⟩
  obtain ⟨c, e, h1, -⟩ := claim_C7 testPrims engC6a "x" 42 exRho 0 "v1" regC6
    treeC7 prfC7 sessC7 (by decide) (by decide) (by decide) (by decide)
    (by decide) (by decide) (by decide)
  exact ⟨c, e, h1⟩

/-! ## C8: repeated audits over the same state -/

/-- First audit of `["x"]` on the one-sample engine. -/
def exRun1 : Except String (AuditPackage × LazyCapsuler × Nat) :=
  generateAuditPackage testPrims engC6a ["x"] 42 exRho 0

/-- Second audit of the same, unchanged dataset state (later clock, stream
cursor wherever the first audit left it). -/
def exRun2 : Except String (AuditPackage × LazyCapsuler × Nat) :=
  match exRun1 with
  | .ok (_, e, k) => generateAuditPackage testPrims e ["x"] 43 exRho k
  | .error e => .error e

set_option maxRecDepth 10000 in
/-- C8 counterexample.  Two audits of the same dataset state with the same
requested set produce equal capsule fingerprints — but also bit-identical
nonces and ciphertexts, because the second audit returns the cached capsule:
the claimed nonce/ciphertext freshness across audits fails. -/
theorem claim_C8_counterexample :
    (exRun1.toOption.map
        (fun r => r.1.capsules.map (fun c => lookupA c.encryptedData "nonce"))) =
      some [some (tokenBytes exRho 0 NONCE_LENGTH)]
    ∧ (exRun2.toOption.map
        (fun r => r.1.capsules.map (fun c => lookupA c.encryptedData "nonce"))) =
      some [some (tokenBytes exRho 0 NONCE_LENGTH)]
    ∧ (exRun1.toOption.map
        (fun r => r.1.capsules.map (fun c => c.capsuleHashInfo.capsuleHash))) =
      (exRun2.toOption.map
        (fun r => r.1.capsules.map (fun c => c.capsuleHashInfo.capsuleHash)))
    ∧ (exRun1.toOption.map
        (fun r => r.1.capsules.map (fun c => lookupA c.encryptedData "ciphertext"))) =
      (exRun2.toOption.map
        (fun r => r.1.capsules.map (fun c => lookupA c.encryptedData "ciphertext"))) := by
  refine ⟨by decide, by decide, by decide, by decide⟩

/-- C8 (amended).  Once a capsule is materialized, every later
materialization of the same sample on the same engine returns the cached
capsule bit-for-bit — equal fingerprint, equal nonce, equal ciphertext —
consuming no randomness; a fresh 12-byte nonce is drawn only on the first
materialization of a sample. -/
theorem claim_C8 (P : Prims) (eng : LazyCapsuler) (sid : String)
    (t t' : Nat) (rho rho' : Nat → Nat) (k k' : Nat)
    (c : AuditCapsule) (eng1 : LazyCapsuler) (k1 : Nat)
    (h : materializeCapsule P eng sid t rho k = .ok (c, eng1, k1)) :
    materializeCapsule P eng1 sid t' rho' k' = .ok (c, eng1, k') := by
  have hcached : lookupA eng1.materializedCapsules sid = some c := by
    unfold materializeCapsule at h
    repeat' first
      | split at h
      | dsimp only at h
    all_goals cases h
    all_goals
      first
      | exact lookupA_updateA_self _ _ _
      | (rename_i x heq
         exact heq)
  unfold materializeCapsule
  rw [hcached]

/-- Witness for C8: the concrete second materialization returns the first
capsule unchanged. -/
theorem claim_C8_witness :
    ∃ c eng1 k1, materializeCapsule testPrims engC6a "x" 42 exRho 0 = .ok (c, eng1, k1)
      ∧ materializeCapsule testPrims eng1 "x" 43 (fun i => i + 99) 77 =
          .ok (c, eng1, 77) := by
  have hok : (materializeCapsule testPrims engC6a "x" 42 exRho 0).toOption.isSome = true := by
    decide
  rcases hrun : materializeCapsule testPrims engC6a "x" 42 exRho 0 with e | ⟨c, eng1, k1⟩
  · rw [hrun] at hok
    simp [Except.toOption] at hok
  · exact ⟨c, eng1, k1, rfl,
      claim_C8 testPrims engC6a "x" 42 43 exRho (fun i => i + 99) 0 77 c eng1 k1 hrun⟩

/-! ## C9: lineage cycles -/

/-- Record for model `"A"` whose parent edge points at `"B"`. -/
def recA : ModelVersionRecord :=
  { modelVersion := "A", datasetId := "ds1", datasetHash := "h1",
    registeredAt := "t1", modelType := "ml_model", parentVersion := some "B" }

/-- Record for model `"B"` whose parent edge points back at `"A"`. -/
def recB : ModelVersionRecord :=
  { modelVersion := "B", datasetId := "ds2", datasetHash := "h2",
    registeredAt := "t2", modelType := "ml_model", parentVersion := some "A" }

/-- Registry after registering `"A"` with parent `"B"`. -/
def regAfterA : MultiModelRegistry :=
  (registerModelDataset { registry := [], versionLineage := [] }
    "A" "ds1" "h1" "t1" "ml_model" (some "B")).2

/-- Registry after additionally registering `"B"` with parent `"A"` — a
lineage cycle, accepted without complaint. -/
def cycReg : MultiModelRegistry :=
  (registerModelDataset regAfterA "B" "ds2" "h2" "t2" "ml_model" (some "A")).2

/-- The `_registry` values of the cyclic registry. -/
def cycVals : List RegistryEntry :=
  [.mrec recA, .mrec recB]

/-- C9 counterexample.  The registration closing the `A → B → A` cycle is
accepted (it returns its registry key; no `CycleDetected` is possible —
`register_model_dataset` has no failure path), both records with their
mutual parent edges are stored, and `_get_ancestors` on `"A"` exhausts a
fuel of 100 — the unguarded recursion does not terminate. -/
theorem claim_C9_counterexample :
    (registerModelDataset regAfterA "B" "ds2" "h2" "t2" "ml_model" (some "A")).1 =
      "model:B:dataset:h2"
    ∧ lookupA cycReg.registry "model:A:dataset:h1" = some (.mrec recA)
    ∧ lookupA cycReg.registry "model:B:dataset:h2" = some (.mrec recB)
    ∧ getAncestorsFuel 100 (cycReg.registry.map Prod.snd) "A" = none := by
  refine ⟨by decide, by decide, by decide, by decide⟩

/-- C9 (amended).  `register_model_dataset` performs no cycle detection and
cannot fail with `CycleDetected`: every registration — including one whose
parent edge closes a cycle — stores its record under the composite key; and
on the resulting cyclic lineage `_get_ancestors` never terminates: it
exhausts every fuel bound. -/
theorem claim_C9 :
    (∀ (reg : MultiModelRegistry) (mv ds dh ra mt : String)
        (pv : Option String),
      lookupA (registerModelDataset reg mv ds dh ra mt pv).2.registry
          (createRegistryKey mv dh) =
        some (.mrec { modelVersion := mv, datasetId := ds, datasetHash := dh,
                      registeredAt := ra, modelType := mt, parentVersion := pv }))
    ∧ cycReg.registry.map Prod.snd = cycVals
    ∧ (∀ fuel, getAncestorsFuel fuel cycVals "A" = none) := by
  refine ⟨?_, by decide, ?_⟩
  · intro reg mv ds dh ra mt pv
    exact lookupA_updateA_self _ _ _
  · have both : ∀ fuel, getAncestorsFuel fuel cycVals "A" = none
        ∧ getAncestorsFuel fuel cycVals "B" = none := by
      intro fuel
      induction fuel with
      | zero => exact ⟨rfl, rfl⟩
      | succ n ih =>
          constructor
          · show (getAncestorsFuel n cycVals "B").map (fun rest => "B" :: rest) = none
            rw [ih.2]
            rfl
          · show (getAncestorsFuel n cycVals "A").map (fun rest => "A" :: rest) = none
            rw [ih.1]
            rfl
    exact fun fuel => (both fuel).1

/-- Witness for C9: the registration lemma at the cycle-closing input and
fuel exhaustion at 100. -/
theorem claim_C9_witness :
    lookupA cycReg.registry (createRegistryKey "B" "h2") = some (.mrec recB)
    ∧ getAncestorsFuel 100 cycVals "B" = none := by
  constructor
  · exact (claim_C9.1 regAfterA "B" "ds2" "h2" "t2" "ml_model" (some "A"))
  · have h := claim_C9.2.2
    decide

/-! ## C10: checkpoints poisoning find_compatible_models -/

theorem mem_updateA_self {α : Type} (l : List (String × α)) (k : String) (v : α) :
    (k, v) ∈ updateA l k v := by
  unfold updateA
  by_cases h : (l.find? (fun p => p.1 = k)).isSome
  · rw [if_pos h]
    obtain ⟨p, hp⟩ := Option.isSome_iff_exists.mp h
    have hmem := List.mem_of_find?_eq_some hp
    have hkey : p.1 = k := by simpa using List.find?_some hp
    rw [List.mem_map]
    exact ⟨p, hmem, by simp [hkey]⟩
  · rw [if_neg h]
    simp

theorem mem_updateA_of_ne {α : Type} (l : List (String × α)) (k k' : String)
    (v v' : α) (hmem : (k', v') ∈ l) (hne : k' ≠ k) :
    (k', v') ∈ updateA l k v := by
  unfold updateA
  by_cases h : (l.find? (fun p => p.1 = k)).isSome
  · rw [if_pos h, List.mem_map]
    exact ⟨(k', v'), hmem, by simp [hne]⟩
  · rw [if_neg h]
    exact List.mem_append_left _ hmem

theorem checkpointKey_ne_modelKey (a mv dh : String) :
    ("checkpoint:" ++ a) ≠ createRegistryKey mv dh := by
  intro h
  unfold createRegistryKey at h
  have h2 := congrArg (fun s => s.data) h
  simp only [String.data_append] at h2
  have h3 := congrArg List.head? h2
  simp at h3

/-- Any value list containing a checkpoint makes the
`find_compatible_models` loop raise, whatever the accumulator. -/
theorem findCompatibleGo_err (dh : String) (mt : Option String) :
    ∀ (vals : List RegistryEntry) (acc : List ModelVersionRecord),
      vals.any RegistryEntry.isChk = true →
      (findCompatibleGo dh mt vals acc).isOk = false
  | [], _, hchk => by simp at hchk
  | .chk c :: rest, acc, _ => rfl
  | .mrec r :: rest, acc, hchk => by
      have hrest : rest.any RegistryEntry.isChk = true := by
        simpa [RegistryEntry.isChk] using hchk
      unfold findCompatibleGo
      by_cases hcond : r.datasetHash = dh ∧ (mt = none ∨ mt = some r.modelType)
      · rw [if_pos hcond]
        exact findCompatibleGo_err dh mt rest (acc ++ [r]) hrest
      · rw [if_neg hcond]
        exact findCompatibleGo_err dh mt rest acc hrest

/-- The selective-materialization fold ignores checkpoint values
entirely. -/
theorem candidatesFold_skip (mtf dsp : Option String) :
    ∀ (l : List (String × RegistryEntry)) (acc : List (String × String)),
      ((l.map Prod.snd).foldl
        (fun acc e =>
          match e with
          | .chk _ => acc
          | .mrec r =>
              if truthyOpt mtf ∧ some r.modelType ≠ mtf then acc
              else if truthyOpt dsp ∧
                  strContains r.datasetId (dsp.getD "") = false then acc
              else acc ++ [(r.modelVersion, r.datasetHash)]) acc) =
      (((l.filter (fun q => !q.2.isChk)).map Prod.snd).foldl
        (fun acc e =>
          match e with
          | .chk _ => acc
          | .mrec r =>
              if truthyOpt mtf ∧ some r.modelType ≠ mtf then acc
              else if truthyOpt dsp ∧
                  strContains r.datasetId (dsp.getD "") = false then acc
              else acc ++ [(r.modelVersion, r.datasetHash)]) acc)
  | [], _ => rfl
  | (k, .chk c) :: rest, acc => by
      simp only [List.map_cons, List.foldl_cons, List.filter_cons,
        RegistryEntry.isChk, Bool.not_true, if_neg]
      exact candidatesFold_skip mtf dsp rest acc
  | (k, .mrec r) :: rest, acc => by
      simp only [List.map_cons, List.foldl_cons, List.filter_cons,
        RegistryEntry.isChk, Bool.not_false, if_pos]
      exact candidatesFold_skip mtf dsp rest _

/-- C10.  Once `create_version_checkpoint` has stored its plain-dict record
in `_registry`, that registry contains a checkpoint value, it still does
after further `register_model_dataset` calls, every `find_compatible_models`
call on such a registry raises (`.isOk = false`), and
`get_selective_materialization_candidates` never raises — it filters
non-`ModelVersionRecord` values before touching any attribute, so checkpoint
entries are invisible to it. -/
theorem claim_C10 :
    (∀ (reg : MultiModelRegistry) (mv : String) (t : Nat) (ca : String),
      ((createVersionCheckpoint reg mv t ca).2.registry.map Prod.snd).any
        RegistryEntry.isChk = true)
    ∧ (∀ (reg : MultiModelRegistry),
        (reg.registry.map Prod.snd).any RegistryEntry.isChk = true →
        ∀ (dh : String) (mt : Option String),
          (findCompatibleModels reg dh mt).isOk = false)
    ∧ (∀ (reg : MultiModelRegistry) (mv : String) (t : Nat)
        (ca mv' ds dh ra mt : String) (pv : Option String),
        (((registerModelDataset (createVersionCheckpoint reg mv t ca).2
            mv' ds dh ra mt pv).2.registry.map Prod.snd).any
          RegistryEntry.isChk = true))
    ∧ (∀ (reg : MultiModelRegistry) (mtf dsp : Option String),
        getSelectiveMaterializationCandidates reg mtf dsp =
          getSelectiveMaterializationCandidates
            { reg with registry := reg.registry.filter (fun q => !q.2.isChk) }
            mtf dsp) := by
  have hchkmem : ∀ (reg : MultiModelRegistry) (mv : String) (t : Nat) (ca : String),
      ("checkpoint:" ++ ("checkpoint_" ++ mv ++ "_" ++ toString t),
        RegistryEntry.chk
          { checkpointId := "checkpoint_" ++ mv ++ "_" ++ toString t,
            modelVersion := mv, createdAt := ca }) ∈
        (createVersionCheckpoint reg mv t ca).2.registry := by
    intro reg mv t ca
    exact mem_updateA_self _ _ _
  refine ⟨?_, ?_, ?_, ?_⟩
  · intro reg mv t ca
    rw [List.any_eq_true]
    exact ⟨_, List.mem_map_of_mem Prod.snd (hchkmem reg mv t ca), rfl⟩
  · intro reg hchk dh mt
    exact findCompatibleGo_err dh mt _ [] hchk
  · intro reg mv t ca mv' ds dh ra mt pv
    rw [List.any_eq_true]
    have hm : ("checkpoint:" ++ ("checkpoint_" ++ mv ++ "_" ++ toString t),
        RegistryEntry.chk
          { checkpointId := "checkpoint_" ++ mv ++ "_" ++ toString t,
            modelVersion := mv, createdAt := ca }) ∈
        (registerModelDataset (createVersionCheckpoint reg mv t ca).2
          mv' ds dh ra mt pv).2.registry := by
      exact mem_updateA_of_ne _ _ _ _ _ (hchkmem reg mv t ca)
        (checkpointKey_ne_modelKey _ mv' dh)
    exact ⟨_, List.mem_map_of_mem Prod.snd hm, rfl⟩
  · intro reg mtf dsp
    exact candidatesFold_skip mtf dsp reg.registry []

/-- A registry holding exactly one checkpoint record. -/
def chkReg : MultiModelRegistry :=
  (createVersionCheckpoint { registry := [], versionLineage := [] } "M" 7 "t7").2

/-- Witness for C10 at the one-checkpoint registry. -/
theorem claim_C10_witness :
    (chkReg.registry.map Prod.snd).any RegistryEntry.isChk = true
    ∧ (findCompatibleModels chkReg "h" none).isOk = false
    ∧ getSelectiveMaterializationCandidates chkReg none none = [] := by
  refine ⟨by decide, ?_, by decide⟩
  exact claim_C10.2.1 chkReg (by decide) "h" none

end LazyCapsuleAudit
